import Mathlib

/-! # The chatops tunnel relay (Go package `relay`), embedded in Lean

The definitions below follow `src/relay/relay.go` function by function.

Conventions of the embedding:
* a Go `[]byte` is the list of its bytes, a Go `int`/`int64` that only counts or
  stores a timestamp is an `Int`, a `time.Duration` is an `Int` of nanoseconds;
* a Go `error` is the text of its message, `nil` is `none`;
* a method with a pointer receiver takes the receiver's value and returns the
  updated value next to its Go results;
* a panic (nil dereference, slice out of range) is the result `none`;
* logging has no effect on the state and is left out;
* values the code reads from its environment (the clock, the outcome of a dial
  or of a remote call) are arguments of the function that reads them.
-/

namespace relay

/-! ## Plain data -/

/-- Go byte slice. -/
abbrev Bytes := List UInt8

/-- Go error value, identified by its message. -/
abbrev Error := String

/-- Header mapping of net/http: key to list of values. -/
abbrev http.Header := List (String × List String)

/-- Form values of net/url: key to list of values. -/
abbrev url.Values := List (String × List String)

/-- The parts of url.URL the relay and its router look at. -/
structure url.URL where
  Scheme : String := ""
  Host : String := ""
  Path : String := ""
  RawQuery : String := ""
deriving DecidableEq, Repr

/-- A byte stream (io.ReadCloser): the bytes it yields, and the error that ends it
(none when it ends with io.EOF). -/
structure Reader where
  data : Bytes := []
  err : Option Error := none
deriving DecidableEq, Repr

/-- Go builtin make([]byte, n): n zero bytes. -/
def make (n : Nat) : Bytes := List.replicate n 0

/-- Go builtin copy(dst, src): overwrites the first min(len dst, len src) bytes of dst
and returns their number, next to the updated dst. -/
def copy (dst src : Bytes) : Bytes × Nat :=
  let n := min dst.length src.length
  (src.take n ++ dst.drop n, n)

/-- The function ioutil.ReadAll: everything read before the stream ended, and the error
if it did not end with io.EOF. -/
def ReadAll (r : Reader) : Bytes × Option Error := (r.data, r.err)

/-- The function bytes.NewReader wrapped in ioutil.NopCloser: a stream over b that ends
with io.EOF. -/
def NewReader (b : Bytes) : Reader := { data := b, err := none }

/-- The type http.Request, with the fields the relay copies. -/
structure Request where
  Method : String := ""
  URL : url.URL := {}
  Proto : String := ""
  ProtoMajor : Int := 0
  ProtoMinor : Int := 0
  Header : http.Header := []
  Body : Reader := {}
  ContentLength : Int := 0
  TransferEncoding : List String := []
  Host : String := ""
  Form : url.Values := []
deriving DecidableEq, Repr

/-! ## Response -/

/-- Response is a container that encapsulates a response from a relayed request. -/
structure Response where
  Status : Int := 0
  Body : Bytes := []
deriving DecidableEq, Repr

/-- Method Header of Response: a new empty header on every call. -/
def Response.Header (_r : Response) : http.Header := []

/-- Method Write of Response: the body becomes a fresh slice of len(b) bytes into which b
is copied; returns the number of bytes copied and a nil error. -/
def Response.Write (r : Response) (b : Bytes) : Response × Nat × Option Error :=
  let c := copy (make b.length) b
  ({ r with Body := c.1 }, c.2, none)

/-- Method WriteHeader of Response. -/
def Response.WriteHeader (r : Response) (statusCode : Int) : Response :=
  { r with Status := statusCode }

/-! ## Handlers and the router -/

/-- One call a handler makes on the http.ResponseWriter it is given. -/
inductive WriterOp where
  | Header
  | Write (b : Bytes)
  | WriteHeader (statusCode : Int)
deriving DecidableEq, Repr

/-- The type http.HandlerFunc: a handler is the sequence of calls it makes on its
ResponseWriter for a given request. -/
abbrev HandlerFunc := Request → List WriterOp

/-- One handler call carried out on a Response. -/
def Response.apply (r : Response) : WriterOp → Response
  | .Header => r
  | .Write b => (r.Write b).1
  | .WriteHeader s => r.WriteHeader s

/-- Method ServeHTTP of a handler, with a Response as the writer. -/
def HandlerFunc.ServeHTTP (h : HandlerFunc) (w : Response) (req : Request) : Response :=
  (h req).foldl Response.apply w

/-- A route of the gorilla/mux router as HandleFunc registers it: a path template and
a handler. -/
structure Route where
  path : String
  handler : HandlerFunc

/-- The type mux.Router: its routes in registration order. -/
structure Router where
  routes : List Route := []

/-- The function mux.NewRouter. -/
def NewRouter : Router := {}

/-- Method HandleFunc of the router: appends a route for the path. -/
def Router.HandleFunc (r : Router) (path : String) (f : HandlerFunc) : Router × Route :=
  ({ r with routes := r.routes ++ [⟨path, f⟩] }, ⟨path, f⟩)

/-- Method Match of a route registered by HandleFunc. The templates this repository
registers are literal paths, which mux matches against the whole request path. -/
def Route.Match (rt : Route) (req : Request) : Bool :=
  req.URL.Path == rt.path

/-- The type mux.RouteMatch. -/
structure RouteMatch where
  Route : Option Route := none
  Handler : Option HandlerFunc := none
  MatchErr : Option Error := none

/-- The error mux.ErrNotFound. -/
def ErrNotFound : Error := "no matching route was found"

/-- Method Match of the router: the first registered route that matches wins; with no
match (and no NotFoundHandler, which the relay never sets) MatchErr is ErrNotFound. -/
def Router.Match (r : Router) (req : Request) : Bool × RouteMatch :=
  match r.routes.find? (fun rt => rt.Match req) with
  | some rt => (true, { Route := some rt, Handler := some rt.handler })
  | none => (false, { MatchErr := some ErrNotFound })

/-! ## FauxRequest -/

/-- FauxRequest is the same as an http.Request, but the body is a pre-read byte array. -/
structure FauxRequest where
  Method : String := ""
  URL : url.URL := {}
  Proto : String := ""
  ProtoMajor : Int := 0
  ProtoMinor : Int := 0
  Header : http.Header := []
  Body : Bytes := []
  ContentLength : Int := 0
  TransferEncoding : List String := []
  Host : String := ""
  Form : url.Values := []
deriving DecidableEq, Repr

/-- The function CreateFauxRequest. -/
def CreateFauxRequest (req : Request) (body : Bytes) : FauxRequest :=
  { Method := req.Method
    URL := req.URL
    Proto := req.Proto
    ProtoMajor := req.ProtoMajor
    ProtoMinor := req.ProtoMinor
    Header := req.Header
    Body := body
    ContentLength := req.ContentLength
    TransferEncoding := req.TransferEncoding
    Host := req.Host
    Form := req.Form }

/-- Method Request turns the FauxRequest into an http.Request. -/
def FauxRequest.Request (f : FauxRequest) : Request :=
  { Method := f.Method
    URL := f.URL
    Proto := f.Proto
    ProtoMajor := f.ProtoMajor
    ProtoMinor := f.ProtoMinor
    Header := f.Header
    Body := NewReader f.Body
    ContentLength := f.ContentLength
    TransferEncoding := f.TransferEncoding
    Host := f.Host
    Form := f.Form }

/-! ## Relayer -/

/-- A metric of zserge/metric (counter or histogram): the samples handed to Add, oldest
first. A duration sample is kept in nanoseconds. -/
abbrev Metric := List Int

/-- Method Add of a metric. -/
def Metric.Add (m : Metric) (v : Int) : Metric := m ++ [v]

/-- Relayer is an internal object specifically for relaying requests via rpc. The relay
hook is a closure over a counter of the owning Relay; it is kept as its effect on that
counter. lastPing is a time in Unix nanoseconds. -/
structure Relayer where
  router : Router := {}
  lastPing : Int := 0
  relayhook : Metric → Metric := id

/-- The function newRelayer. -/
def newRelayer (hook : Metric → Metric) : Relayer :=
  { router := NewRouter, lastPing := 0, relayhook := hook }

/-- Method handleFunc of Relayer. -/
def Relayer.handleFunc (r : Relayer) (path : String) (handlerFunc : HandlerFunc) :
    Relayer × Route :=
  let res := r.router.HandleFunc path handlerFunc
  ({ r with router := res.1 }, res.2)

/-- Rpc call handle. -/
def RelayerRelayRequest : String := "Relayer.RelayRequest"

/-- What one run of RelayRequest leaves behind: the returned error, the Response it was
given, the counter the hook works on, and the route whose handler was executed. -/
structure RelayRequestResult where
  err : Option Error
  response : Response
  hooked : Metric
  served : Option Route

/-- Method RelayRequest calls a local handler with a relayed request. The router never
reports a match without a handler, so the branch for a missing handler is never taken. -/
def Relayer.RelayRequest (r : Relayer) (req : FauxRequest) (response : Response)
    (counter : Metric) : RelayRequestResult :=
  let counter := r.relayhook counter
  let m := r.router.Match req.Request
  if m.1 then
    match m.2.Handler with
    | some h =>
      { err := none, response := h.ServeHTTP response req.Request, hooked := counter,
        served := m.2.Route }
    | none => { err := none, response := response, hooked := counter, served := none }
  else
    { err := m.2.MatchErr, response := response, hooked := counter, served := none }

/-- Rpc call handle. -/
def RelayerPing : String := "Relayer.Ping"

/-- Method Ping is used to check if the Relay is still connected. The second component is
the reply. -/
def Relayer.Ping (r : Relayer) (t : Int) : Relayer × String × Option Error :=
  ({ r with lastPing := t }, "pong", none)

/-! ## Regular expressions (Go package regexp) -/

/-- Syntax tree of a compiled pattern, for the fragment of the RE2 syntax made of literal
characters, the wildcard, the digit class, begin and end of text, grouping, alternation
and the repetitions star, plus and question mark. -/
inductive Regexp where
  | empty
  | lit (c : Char)
  | any
  | digit
  | bot
  | eot
  | cat (a b : Regexp)
  | alt (a b : Regexp)
  | star (a : Regexp)
  | plus (a : Regexp)
  | quest (a : Regexp)
deriving DecidableEq, Repr

/-- End positions of zero or more consecutive matches of a sub-pattern starting at i;
step gives the end positions of one match. A round that consumes nothing is not
repeated, so the text length bounds the number of rounds. -/
def starEnds (step : Nat → List Nat) : Nat → Nat → List Nat
  | 0, i => [i]
  | fuel + 1, i => i :: ((step i).filter (fun j => i < j)).flatMap (starEnds step fuel)

/-- All positions j such that the pattern matches the text from position i up to j. The
wildcard matches every character but the newline, begin and end of text are empty matches
at the two ends of the text. -/
def Regexp.ends : Regexp → List Char → Nat → List Nat
  | .empty, _, i => [i]
  | .lit c, t, i => if t.get? i = some c then [i + 1] else []
  | .any, t, i =>
    match t.get? i with
    | some c => if c = '\n' then [] else [i + 1]
    | none => []
  | .digit, t, i =>
    match t.get? i with
    | some c => if '0' ≤ c ∧ c ≤ '9' then [i + 1] else []
    | none => []
  | .bot, _, i => if i = 0 then [i] else []
  | .eot, t, i => if i = t.length then [i] else []
  | .cat a b, t, i => (a.ends t i).flatMap (fun j => b.ends t j)
  | .alt a b, t, i => a.ends t i ++ b.ends t i
  | .star a, t, i => starEnds (fun j => a.ends t j) t.length i
  | .plus a, t, i => (a.ends t i).flatMap (starEnds (fun j => a.ends t j) t.length)
  | .quest a, t, i => i :: a.ends t i

/-- Method MatchString of a compiled pattern: reports whether the string contains any
match of the pattern, at any start position. -/
def Regexp.MatchString (re : Regexp) (s : String) : Bool :=
  (List.range (s.toList.length + 1)).any (fun i => !(re.ends s.toList i).isEmpty)

/-- The three repetition operators. -/
def isRepeatOp (c : Char) : Bool := c = '*' ∨ c = '+' ∨ c = '?'

/-- Reads the repetition operator that may follow an atom. A question mark after the
operator only makes it non-greedy; a second repetition operator is a syntax error. -/
def parseRepeat (a : Regexp) : List Char → Option (Regexp × List Char)
  | [] => some (a, [])
  | c :: rest =>
    let r : Option Regexp :=
      if c = '*' then some (.star a) else if c = '+' then some (.plus a)
      else if c = '?' then some (.quest a) else none
    match r with
    | none => some (a, c :: rest)
    | some b =>
      let rest := match rest with
        | '?' :: rest' => rest'
        | _ => rest
      match rest with
      | d :: _ => if isRepeatOp d then none else some (b, rest)
      | [] => some (b, rest)

/-- Reads what follows a backslash: d is the digit class, an ASCII punctuation character
stands for itself; the other escapes are outside the fragment. -/
def parseEscape : List Char → Option (Regexp × List Char)
  | [] => none
  | c :: rest =>
    if c = 'd' then some (.digit, rest)
    else if c.toNat < 128 ∧ ¬ c.isAlphanum then some (.lit c, rest)
    else none

mutual
/-- Reads an alternation of concatenations. -/
def parseAlt : Nat → List Char → Option (Regexp × List Char)
  | 0, _ => none
  | n + 1, s =>
    match parseCat n s with
    | some (a, '|' :: rest) =>
      match parseAlt n rest with
      | some (b, rest') => some (.alt a b, rest')
      | none => none
    | r => r
/-- Reads a concatenation of repeated atoms, up to a bar, a closing bracket or the end. -/
def parseCat : Nat → List Char → Option (Regexp × List Char)
  | 0, _ => none
  | n + 1, s =>
    match s with
    | [] => some (.empty, s)
    | '|' :: _ => some (.empty, s)
    | ')' :: _ => some (.empty, s)
    | _ =>
      match parseAtom n s with
      | some (a, rest) =>
        match parseRepeat a rest with
        | some (a, rest) =>
          match parseCat n rest with
          | some (.empty, rest') => some (a, rest')
          | some (b, rest') => some (.cat a b, rest')
          | none => none
        | none => none
      | none => none
/-- Reads one atom: a group, an escape, the wildcard, an anchor or a literal. -/
def parseAtom : Nat → List Char → Option (Regexp × List Char)
  | 0, _ => none
  | n + 1, s =>
    match s with
    | [] => none
    | '(' :: rest =>
      match parseAlt n rest with
      | some (a, ')' :: rest') => some (a, rest')
      | _ => none
    | '\\' :: rest => parseEscape rest
    | '.' :: rest => some (.any, rest)
    | '^' :: rest => some (.bot, rest)
    | '$' :: rest => some (.eot, rest)
    | c :: rest =>
      if isRepeatOp c ∨ c = '[' ∨ c = '{' then none else some (.lit c, rest)
end

/-- The function regexp.Compile on the fragment above: the syntax tree of the pattern,
or none for a pattern that is malformed or uses syntax outside the fragment. -/
def Compile (expr : String) : Option Regexp :=
  match parseAlt (3 * expr.toList.length + 3) expr.toList with
  | some (re, []) => some re
  | _ => none

/-! ## Network addresses (Go package net) -/

/-- The type net.IP: a slice of bytes. -/
abbrev IP := List UInt8

/-- Dotted decimal form of four bytes. -/
def dotted (a b c d : UInt8) : List Char :=
  Nat.toDigits 10 a.toNat ++ '.' :: Nat.toDigits 10 b.toNat ++ '.' ::
    Nat.toDigits 10 c.toNat ++ '.' :: Nat.toDigits 10 d.toNat

/-- Two lower-case hexadecimal digits per byte. -/
def hexString (ip : List UInt8) : List Char :=
  ip.flatMap (fun b => [Nat.digitChar (b.toNat / 16), Nat.digitChar (b.toNat % 16)])

/-- The first longest run of at least two zero groups among the groups from index i on,
as start index and length; best is the run found so far. -/
def longestZeros : List Nat → Nat → Option (Nat × Nat) → Option (Nat × Nat)
  | [], _, best => best
  | g :: gs, i, best =>
    let l := ((g :: gs).takeWhile (fun x => x = 0)).length
    let better : Bool :=
      match best with
      | none => decide (2 ≤ l)
      | some (_, bl) => decide (2 ≤ l ∧ bl < l)
    longestZeros gs (i + 1) (if better then some (i, l) else best)

/-- Groups in hexadecimal without leading zeros, separated by colons. -/
def hexGroups (gs : List Nat) : List Char :=
  List.intercalate [':'] (gs.map (Nat.toDigits 16))

/-- Text of an IPv6 address given by its eight 16-bit groups: the first longest run of
two or more zero groups is written as a double colon. -/
def ip6Text (gs : List Nat) : List Char :=
  match longestZeros gs 0 none with
  | none => hexGroups gs
  | some (s, l) => hexGroups (gs.take s) ++ ':' :: ':' :: hexGroups (gs.drop (s + l))

/-- The 16-bit groups of a byte sequence of even length. -/
def groups16 : List UInt8 → List Nat
  | hi :: lo :: rest => (hi.toNat * 256 + lo.toNat) :: groups16 rest
  | _ => []

/-- Method String of net.IP: the angle-bracketed nil for an empty slice, dotted decimal
for a 4-byte address and for a 16-byte IPv4-mapped address, the IPv6 text for any other
16-byte address, and a question mark followed by the bytes in hexadecimal otherwise. -/
def IP.String (ip : IP) : String :=
  String.mk <|
    match ip with
    | [] => "<nil>".toList
    | [a, b, c, d] => dotted a b c d
    | [b0, b1, b2, b3, b4, b5, b6, b7, b8, b9, b10, b11, b12, b13, b14, b15] =>
      if [b0, b1, b2, b3, b4, b5, b6, b7, b8, b9] = List.replicate 10 0 ∧ b10 = 255 ∧ b11 = 255
      then dotted b12 b13 b14 b15
      else ip6Text (groups16 ip)
    | _ => '?' :: hexString ip

/-- The type net.TCPAddr (the value a non-nil pointer to it refers to). -/
structure TCPAddr where
  IP : IP := []
  Port : Int := 0
  Zone : String := ""
deriving DecidableEq, Repr

/-- The interface net.Addr by dynamic type: a TCP address, or an address of any other
type (UDP, Unix, IP, ...), of which only the network name and the text are kept. -/
inductive Addr where
  | tcp (a : TCPAddr)
  | other (network : String) (text : String)
deriving DecidableEq, Repr

/-- The interface net.Conn, as far as the relay inspects it. -/
structure Conn where
  RemoteAddr : Addr
deriving DecidableEq, Repr

/-- The type rpc.Client: the connection it speaks over. -/
structure RpcClient where
  conn : Conn
deriving DecidableEq, Repr

/-- The function rpc.NewClient. -/
def NewClient (conn : Conn) : RpcClient := { conn := conn }

/-- The type rpc.Server: the names of the services registered on it. -/
structure RpcServer where
  services : List String := []
deriving DecidableEq, Repr

/-- The function rpc.NewServer. -/
def NewServer : RpcServer := {}

/-- Method Register of rpc.Server for the Relayer, whose exported methods RelayRequest and
Ping have the shape net/rpc requires: it fails only when the service is already defined. -/
def RpcServer.Register (s : RpcServer) : RpcServer × Option Error :=
  if "Relayer" ∈ s.services then (s, some "rpc: service already defined: Relayer")
  else ({ s with services := s.services ++ ["Relayer"] }, none)

/-- The part of tls.Config the application sets; a certificate is kept as a name. -/
structure TLSConfig where
  InsecureSkipVerify : Bool := false
  Certificates : List String := []
deriving DecidableEq, Repr

/-! ## The writer of the public server -/

/-- The real http.ResponseWriter handed to RelayHandler, as the calls made on it so
far, oldest first. -/
abbrev ResponseWriter := List WriterOp

/-- The bytes of a Go string (its UTF-8 encoding). -/
def utf8 (s : String) : Bytes := s.toList.flatMap String.utf8EncodeChar

/-- The function http.Error: sets the plain-text content type on the header, writes the
status code, then the message followed by a newline (byte 10). -/
def httpError (w : ResponseWriter) (error : String) (code : Int) : ResponseWriter :=
  w ++ [.Header, .WriteHeader code, .Write (utf8 error ++ [10])]

/-- The type httptest.ResponseRecorder, the writer the tests observe responses with. -/
structure ResponseRecorder where
  Code : Int := 200
  Body : Bytes := []
  wroteHeader : Bool := false
deriving DecidableEq, Repr

/-- Method WriteHeader of the recorder: only the first status counts, and a status
outside 100..999 panics. -/
def ResponseRecorder.WriteHeader (rw : ResponseRecorder) (code : Int) :
    Option ResponseRecorder :=
  if rw.wroteHeader then some rw
  else if code < 100 ∨ code > 999 then none
  else some { rw with Code := code, wroteHeader := true }

/-- Method Write of the recorder: an implicit status 200 if none was written, then the
bytes are appended to the body. -/
def ResponseRecorder.Write (rw : ResponseRecorder) (buf : Bytes) : Option ResponseRecorder :=
  (rw.WriteHeader 200).map (fun rw => { rw with Body := rw.Body ++ buf })

/-- One writer call carried out on a recorder. -/
def ResponseRecorder.apply (rw : ResponseRecorder) : WriterOp → Option ResponseRecorder
  | .Header => some rw
  | .Write b => rw.Write b
  | .WriteHeader s => rw.WriteHeader s

/-- What a new recorder holds after a sequence of writer calls. -/
def record (w : ResponseWriter) : Option ResponseRecorder :=
  w.foldlM ResponseRecorder.apply {}

/-! ## Relay -/

/-- RelayMode describes the supported modes a Relay can be in. -/
abbrev RelayMode := String

/-- OFF if the relay is created but not used. -/
def OFF : RelayMode := ""

/-- PassThrough describes the mode in which requests are accepted and forwarded on to a
handler relay. -/
def PassThrough : RelayMode := "passthrough"

/-- Handler mode is when the relay is accepting requests and processing the requests as
if they came in from an HTTP server. -/
def Handler : RelayMode := "handle"

/-- Method String of RelayMode. -/
def RelayMode.String (r : RelayMode) : String :=
  if r = OFF then "off" else r

/-- The constant time.Millisecond, in nanoseconds. -/
def Millisecond : Int := 1000000

/-- The constant time.Second, in nanoseconds. -/
def Second : Int := 1000 * Millisecond

/-- Relay. The fields conf and lock of the source hold no data the relay computes with
beyond what is kept here; doneCh is kept as whether the channel has been closed. -/
structure Relay where
  Host : String
  Port : Int
  WhiteList : Regexp
  Mode : RelayMode
  Debug : Bool := false
  conf : TLSConfig := {}
  relayer : Option Relayer := none
  checkInterval : Int := 0
  rpcsCounter : Metric := []
  connectCounter : Metric := []
  pingHistogram : Metric := []
  rpcHistogram : Metric := []
  isConnected : Bool := false
  connectTimes : List Int := []
  disconnectTimes : List Int := []
  connectTime : Int := 0
  connectCnt : Int := 0
  doneCh : Bool := false
  rpcClient : Option RpcClient := none
  rpcServer : Option RpcServer := none

/-- The function NewRelay. The whitelist is given compiled: regexp.MustCompile panics on
a malformed pattern before any Relay exists. -/
def NewRelay (host : String) (port : Int) (whitelist : Regexp) (mode : RelayMode)
    (conf : TLSConfig) : Relay :=
  { Host := host
    Port := port
    WhiteList := whitelist
    Mode := mode
    conf := conf
    connectTimes := []
    disconnectTimes := []
    rpcsCounter := []
    connectCounter := []
    pingHistogram := []
    rpcHistogram := []
    checkInterval := Second * 2
    doneCh := false }

/-- Method Init is used to initialize the relay. The second component is the error. -/
def Relay.Init (r : Relay) : Relay × Option Error :=
  let r := { r with relayer := some (newRelayer (fun c => c.Add 1)) }
  if r.Mode = Handler then
    let reg := NewServer.Register
    ({ r with rpcServer := some reg.1 }, reg.2)
  else
    (r, none)

/-- Method SetDebug. -/
def Relay.SetDebug (r : Relay) (b : Bool) : Relay := { r with Debug := b }

/-- Method SetCheckInterval. -/
def Relay.SetCheckInterval (r : Relay) (duration : Int) : Relay :=
  { r with checkInterval := duration }

/-- Method LastPingTime; none stands for the zero time.Time. -/
def Relay.LastPingTime (r : Relay) : Option Int :=
  match r.relayer with
  | some rl => some rl.lastPing
  | none => none

/-- Method HandleFunc should be used in place of the router's HandleFunc, to register
handlers to accept relayed events. Without a relayer the call dereferences nil. -/
def Relay.HandleFunc (r : Relay) (path : String) (f : HandlerFunc) : Option (Relay × Route) :=
  match r.relayer with
  | some rl =>
    let res := rl.handleFunc path f
    some ({ r with relayer := some res.1 }, res.2)
  | none => none

/-- Method Call of rpc.Client as the relay's environment provides it: from the client,
the service method, the argument and the reply value passed in, the returned error and
the reply value afterwards. -/
abbrev RpcCall := RpcClient → String → FauxRequest → Response → Option Error × Response

/-- What one run of RelayHandler leaves behind: the Relay (its metrics), the calls made on
the writer, and the remote calls issued, oldest first. -/
structure RelayHandlerResult where
  relay : Relay
  w : ResponseWriter
  calls : List (RpcClient × String × FauxRequest)

/-- Method RelayHandler takes the place of an actual handler to glue an existing http
server to the Relay. start and finish are the two clock readings around the call. -/
def Relay.RelayHandler (r : Relay) (call : RpcCall) (start finish : Int)
    (w : ResponseWriter) (req : Request) : RelayHandlerResult :=
  let read := ReadAll req.Body
  match read.2 with
  | some _ => { relay := r, w := httpError w "invalid body" 400, calls := [] }
  | none =>
    let faux := CreateFauxRequest req read.1
    let resp : Response := {}
    let called : Option Error × Response × Relay × List (RpcClient × String × FauxRequest) :=
      match r.rpcClient with
      | none => (some "relay failed, no rpc client", resp, r, [])
      | some client =>
        let res := call client RelayerRelayRequest faux resp
        let r := { r with rpcsCounter := r.rpcsCounter.Add 1 }
        let duration := finish - start
        let r := { r with rpcHistogram := r.rpcHistogram.Add duration }
        (res.1, res.2, r, [(client, RelayerRelayRequest, faux)])
    match called with
    | (some _, _, r, calls) =>
      { relay := r, w := httpError w "relay failure" 500, calls := calls }
    | (none, resp, r, calls) =>
      let resp := if resp.Status = 0 then { resp with Status := 200 } else resp
      { relay := r, w := w ++ [.WriteHeader resp.Status, .Write resp.Body], calls := calls }

/-- Decoding of a gob-encoded Response into a reply value: a field with the zero value
is not transmitted and leaves the reply's field as it is. -/
def gobDecode (sent reply : Response) : Response :=
  { Status := if sent.Status = 0 then reply.Status else sent.Status
    Body := if sent.Body = [] then reply.Body else sent.Body }

/-! ## The tunnel

net/rpc sends the argument of a call with gob. Strings, integers, byte slices and maps
arrive as they were sent. A URL is sent as its text (MarshalBinary, which is the method
String) and parsed again on arrival (UnmarshalBinary, which is the function url.Parse),
so the URL that arrives is what url.Parse makes of that text. -/

/-- What becomes of a URL on its way through gob: the URL that arrives, or the error of
url.Parse. It belongs to the environment of the relay. -/
abbrev Wire := url.URL → Except Error url.URL

/-- A remote call over a live tunnel whose other end serves the given Relayer with
net/rpc. The server looks up the method, then decodes the argument, which arrives as it
was sent but for its URL; a URL that does not parse ends the call with that error.
Otherwise the server runs RelayRequest on a new Response; an error comes back as the
call's error, else the Response is decoded into the caller's reply value. -/
def tunnelOver (wire : Wire) (remote : Relayer) (counter : Metric) : RpcCall :=
  fun _ serviceMethod args reply =>
    if serviceMethod = RelayerRelayRequest then
      match wire args.URL with
      | .error e => (some e, reply)
      | .ok u =>
        let res := remote.RelayRequest { args with URL := u } {} counter
        match res.err with
        | some e => (some e, reply)
        | none => (none, gobDecode res.response reply)
    else (some ("rpc: can't find method " ++ serviceMethod), reply)

/-- The characters that the method String of a URL writes as they are into a path and
that url.Parse reads as they are in a path and in a host: ASCII letters and digits and
the marks - _ . ~ -/
def url.plain (c : Char) : Bool :=
  c.isAlphanum || c == '-' || c == '_' || c == '.' || c == '~'

/-- The URLs whose way through gob is modelled here: no scheme and no host, as in the
request of an HTTP server; a path that starts with a slash and is made of plain
characters and slashes; a query made of plain characters and of = and &. -/
def url.URL.modelled (u : url.URL) : Bool :=
  u.Scheme == "" && u.Host == "" && u.Path.toList.head? == some '/' &&
    u.Path.toList.all (fun c => url.plain c || c == '/') &&
    u.RawQuery.toList.all (fun c => url.plain c || c == '=' || c == '&')

/-- Method String of a modelled URL: the path, which needs no escaping, followed by a
question mark and the query if there is a query. -/
def url.URL.text (u : url.URL) : List Char :=
  u.Path.toList ++ (if u.RawQuery = "" then [] else '?' :: u.RawQuery.toList)

/-- The function url.Parse on the text of a modelled URL. The text has no scheme and no
fragment; the query is what follows the first question mark. What precedes it is the
path, unless it starts with two slashes and not with three: then what follows them up
to the next slash is the host, and the path is the rest. -/
def url.parseText (text : List Char) : url.URL :=
  let rest := text.takeWhile (fun c => c ≠ '?')
  let query := (text.dropWhile (fun c => c ≠ '?')).drop 1
  if rest.take 2 = ['/', '/'] ∧ rest.take 3 ≠ ['/', '/', '/'] then
    let authority := (rest.drop 2).takeWhile (fun c => c ≠ '/')
    let path := (rest.drop 2).dropWhile (fun c => c ≠ '/')
    { Host := String.mk authority, Path := String.mk path, RawQuery := String.mk query }
  else
    { Path := String.mk rest, RawQuery := String.mk query }

/-- The URL that arrives when a modelled URL is sent; none for a URL that is not
modelled, whatever net/url makes of it. -/
def url.reparse (u : url.URL) : Option url.URL :=
  if u.modelled then some (url.parseText u.text) else none

/-- The error that stands for a URL outside the modelled ones. It is not an error of
net/url. -/
def ErrNotModelled : Error := "url outside the modelled ones"

/-- The wire for modelled URLs. -/
def plainWire : Wire :=
  fun u =>
    match url.reparse u with
    | some a => .ok a
    | none => .error ErrNotModelled

/-- A remote call over a live tunnel that carries modelled URLs. -/
def tunnel (remote : Relayer) (counter : Metric) : RpcCall :=
  tunnelOver plainWire remote counter

/-- Method AddrAllowed takes an address and returns whether that address is allowed by
Relay's whitelist. -/
def Relay.AddrAllowed (r : Relay) (addr : Addr) : Bool :=
  match addr with
  | .tcp tcpAdr => r.WhiteList.MatchString tcpAdr.IP.String
  | _ => false

/-- Method connected. now1 and now2 are its two readings of the clock. -/
def Relay.connected (r : Relay) (now1 now2 : Int) : Relay :=
  let r := { r with connectCnt := r.connectCnt + 1 }
  let r := { r with connectTime := now1 }
  let r := { r with isConnected := true }
  let r := { r with connectCounter := r.connectCounter.Add 1 }
  let r := if r.connectTimes.length > 1000 then
      { r with connectTimes := r.connectTimes.drop 1 } else r
  let r := { r with connectTimes := r.connectTimes ++ [now2] }
  { r with isConnected := true }

/-- Method disconnected. The slice expression disconnectTimes[1:] panics on an empty
slice. -/
def Relay.disconnected (r : Relay) (now : Int) : Option Relay :=
  let trimmed : Option (List Int) :=
    if r.connectTimes.length > 1000 then
      (if r.disconnectTimes.length < 1 then none else some (r.disconnectTimes.drop 1))
    else some r.disconnectTimes
  match trimmed with
  | none => none
  | some d => some { r with disconnectTimes := d ++ [now], isConnected := false }

/-- The part of handleConn before it blocks: connected(), then on the PassThrough side the
whitelist check and the creation of the rpc client, on the other side the entry into
ServeConn, which dereferences rpcServer. -/
def Relay.handleConnOpen (r : Relay) (conn : Conn) (now1 now2 : Int) : Option Relay :=
  let r := r.connected now1 now2
  if r.Mode = PassThrough then
    if r.AddrAllowed conn.RemoteAddr then
      some { r with rpcClient := some (NewClient conn) }
    else
      some r
  else
    match r.rpcServer with
    | some _ => some r
    | none => none

/-- Method handleConn, from the call to its return, for a connection on which nothing
else happens in between: the part before the blocking call, then disconnected(). -/
def Relay.handleConn (r : Relay) (conn : Conn) (now1 now2 now3 : Int) : Option Relay :=
  match r.handleConnOpen conn now1 now2 with
  | some r => r.disconnected now3
  | none => none

/-- One wake-up of the loop in clientConnectionWatcher after its timer fired: the Relay
afterwards and whether the watcher closed its channel. The arguments are the clock at
the wake-up, the outcome of the Ping call (its error and its reply, if issued) and the
clock when the call returned. Writing lastPing through a nil relayer panics. -/
def Relay.watcherWake (r : Relay) (now : Int) (ping : Option Error × Option String)
    (finish : Int) : Option (Relay × Bool) :=
  if r.doneCh then some (r, true)
  else if r.Mode = Handler then
    match r.LastPingTime with
    | some last => some (r, decide (now - last > r.checkInterval * 2))
    | none => some (r, true)
  else if r.Mode = PassThrough then
    match r.rpcClient with
    | some _ =>
      match r.relayer with
      | none => none
      | some rl =>
        let r := { r with relayer := some { rl with lastPing := now } }
        if ping.1 ≠ none ∨ ping.2 = none then some (r, true)
        else some ({ r with pingHistogram := r.pingHistogram.Add (finish - now) }, false)
    | none => some (r, false)
  else some (r, true)

/-- What happens to a Relay while it runs: the steps of handleConn, and the work other
goroutines do on the same Relay in between. -/
inductive Event where
  /-- Listen accepted, or Connect dialled, a connection: handleConn runs up to its
  blocking call. -/
  | accept (conn : Conn) (now1 now2 : Int)
  /-- The blocking call of handleConn returned: disconnected() runs and handleConn returns. -/
  | release (now : Int)
  /-- A wake-up of the watcher handleConn waits for (PassThrough side). -/
  | wake (now : Int) (ping : Option Error × Option String) (finish : Int)
  /-- The public server runs RelayHandler on a request. -/
  | relay (call : RpcCall) (start finish : Int) (req : Request)
  /-- ServeConn serves a Ping of the peer. -/
  | ping (t : Int)
  /-- ServeConn serves a RelayRequest of the peer. -/
  | dispatch (req : FauxRequest)

/-- A Relay together with the connection its handleConn is currently blocked on. -/
structure Endpoint where
  relay : Relay
  handling : Option Conn := none

/-- The effect of one event; none when the event cannot happen in this state or the code
panics. -/
def Endpoint.step (s : Endpoint) : Event → Option Endpoint
  | .accept conn now1 now2 =>
    match s.handling with
    | some _ => none
    | none =>
      match s.relay.handleConnOpen conn now1 now2 with
      | some r => some { relay := r, handling := some conn }
      | none => none
  | .release now =>
    match s.handling with
    | none => none
    | some _ =>
      match s.relay.disconnected now with
      | some r => some { relay := r, handling := none }
      | none => none
  | .wake now ping finish =>
    match s.handling with
    | none => none
    | some conn =>
      if s.relay.Mode = PassThrough ∧ s.relay.AddrAllowed conn.RemoteAddr then
        match s.relay.watcherWake now ping finish with
        | some res => some { s with relay := res.1 }
        | none => none
      else none
  | .relay call start finish req =>
    some { s with relay := (s.relay.RelayHandler call start finish [] req).relay }
  | .ping t =>
    match s.handling, s.relay.rpcServer, s.relay.relayer with
    | some _, some _, some rl =>
      if s.relay.Mode = PassThrough then none
      else some { s with relay := { s.relay with relayer := some (rl.Ping t).1 } }
    | _, _, _ => none
  | .dispatch req =>
    match s.handling, s.relay.rpcServer, s.relay.relayer with
    | some _, some _, some rl =>
      if s.relay.Mode = PassThrough then none
      else
        some { s with
          relay := { s.relay with rpcsCounter := (rl.RelayRequest req {} s.relay.rpcsCounter).hooked } }
    | _, _, _ => none

/-- The effect of a sequence of events, oldest first. -/
def Endpoint.run (s : Endpoint) (es : List Event) : Option Endpoint :=
  es.foldlM Endpoint.step s

/-- The endpoint after NewRelay and Init, before any connection. -/
def Endpoint.start (host : String) (port : Int) (whitelist : Regexp) (mode : RelayMode)
    (conf : TLSConfig) : Endpoint :=
  { relay := (NewRelay host port whitelist mode conf).Init.1, handling := none }

/-- Events other than the two steps of handleConn itself. -/
def Event.inner : Event → Bool
  | .accept _ _ _ => false
  | .release _ => false
  | _ => true

/-- Whether the event is a connection handed to handleConn. -/
def Event.isAccept : Event → Bool
  | .accept _ _ _ => true
  | _ => false

/-- What holds of an endpoint of the given mode and whitelist that a sequence of events
has led to: the facts about the connection bookkeeping that the events preserve. -/
structure Endpoint.Inv (mode : RelayMode) (wl : Regexp) (es : List Event) (s : Endpoint) :
    Prop where
  hMode : s.relay.Mode = mode
  hWhiteList : s.relay.WhiteList = wl
  hRelayer : s.relay.relayer.isSome = true
  hServer : s.relay.rpcServer.isSome = decide (mode = Handler)
  hConnected : s.relay.isConnected = s.handling.isSome
  hCount : s.relay.connectCnt = (es.filter Event.isAccept).length
  hCap : s.relay.connectTimes.length ≤ 1001
  hIdle : s.handling = none →
    s.relay.disconnectTimes.length = min s.relay.connectTimes.length 1000
  hBusy : s.handling ≠ none → 1 ≤ s.relay.connectTimes.length ∧
    s.relay.disconnectTimes.length = min (s.relay.connectTimes.length - 1) 1000
  hClient : s.relay.rpcClient ≠ none ↔
    mode = PassThrough ∧
      ∃ conn a b, Event.accept conn a b ∈ es ∧ s.relay.AddrAllowed conn.RemoteAddr = true
  hCurrent : ∀ conn, s.handling = some conn → mode = PassThrough →
    s.relay.AddrAllowed conn.RemoteAddr = true → s.relay.rpcClient = some (NewClient conn)

/-- One connection cycle on the bookkeeping alone: connected() followed by
disconnected(), with the three clock readings. -/
def Relay.cycle (r : Relay) (t : Int × Int × Int) : Option Relay :=
  (r.connected t.1 t.2.1).disconnected t.2.2

/-- A sequence of connection cycles, oldest first. -/
def Relay.cycles (r : Relay) (ts : List (Int × Int × Int)) : Option Relay :=
  ts.foldlM Relay.cycle r

/-! ## Connect -/

/-- Arithmetic of a signed 64-bit integer: the value wrapped into the int64 range. -/
def wrapInt64 (x : Int) : Int :=
  (x + 9223372036854775808) % 18446744073709551616 - 9223372036854775808

/-- The local variables of the loop in Connect. -/
structure Backoff where
  retry : Int := 0
  sleepDur : Int := 0
deriving DecidableEq, Repr

/-- The time the loop of Connect sleeps before its next dial. -/
def Backoff.sleep (b : Backoff) : Int :=
  if b.retry > 0 then b.sleepDur else 0

/-- The update of the loop variables of Connect after a dial; ok tells whether the dial
succeeded. -/
def Backoff.dialed (b : Backoff) (ok : Bool) : Backoff :=
  if !ok then
    if b.retry < 5 then
      { sleepDur := wrapInt64 (b.sleepDur + wrapInt64 (wrapInt64 (500 * Millisecond) * b.retry))
        retry := wrapInt64 (b.retry + 1) }
    else b
  else
    { retry := 0, sleepDur := 0 }

/-- The loop variables of Connect after a sequence of dial outcomes, oldest first,
starting from the values they are declared with. -/
def Connect (dials : List Bool) : Backoff :=
  dials.foldl Backoff.dialed {}

/-! ## Values used to instantiate the theorems -/

/-- The handler of the round-trip property: it sets status 200 and writes the body it
read from the request in one Write. -/
def echo : HandlerFunc :=
  fun req => [.WriteHeader 200, .Write (ReadAll req.Body).1]

/-- The request of the round-trip test: GET / with header X: Y and body abc123. -/
def sampleRequest : Request :=
  { Method := "GET", URL := { Path := "/" }, Proto := "HTTP/1.1", ProtoMajor := 1,
    ProtoMinor := 1, Header := [("X", ["Y"])], Body := NewReader [97, 98, 99, 49, 50, 51],
    ContentLength := 6 }

/-- A Handler-side Relayer with the echo handler registered on the root path. -/
def sampleRelayer : Relayer :=
  ((newRelayer (fun c => c.Add 1)).handleFunc "/" echo).1

/-- A peer with the IPv4 address 1.2.3.100. -/
def samplePeer : Conn := { RemoteAddr := .tcp { IP := [1, 2, 3, 100], Port := 40000 } }

/-- A connection cycle of a PassThrough endpoint: the sample peer is accepted, one ping of
the watcher succeeds, the next fails, and handleConn returns. -/
def sampleEvents : List Event :=
  [.accept samplePeer 10 10, .wake 12 (none, some "pong") 13,
    .wake 14 (some "connection is shut down", none) 14, .release 15]

/-- The endpoint the sample cycle leads to. -/
def sampleEnd : Endpoint :=
  ((Endpoint.start "" 5000 (.plus .any) PassThrough {}).run sampleEvents).getD
    (Endpoint.start "" 5000 (.plus .any) PassThrough {})

/-! ## Reading a body, Status and Close -/

/-- The error io.EOF. -/
def EOF : Error := "EOF"

/-- Method Read of a byte stream: copies the next bytes into p and advances; at the end of
the stream it returns 0 and the error that ends the stream (io.EOF when there is none).
Returns the updated p, the count, the error and the stream afterwards. -/
def Reader.Read (r : Reader) (p : Bytes) : Bytes × Nat × Option Error × Reader :=
  if r.data = [] then (p, 0, some (r.err.getD EOF), r)
  else
    let c := copy p r.data
    (c.1, c.2, none, { r with data := r.data.drop c.2 })

/-- Repeated Read with a buffer of the given size until Read returns an error, for at most
fuel calls: the bytes read, in order, and the error that ended the reading (none when
the fuel ran out first). -/
def Reader.drain (size : Nat) : Nat → Reader → Bytes × Option Error
  | 0, _ => ([], none)
  | fuel + 1, r =>
    let res := r.Read (make size)
    match res.2.2.1 with
    | some e => (res.1.take res.2.1, some e)
    | none =>
      let rest := Reader.drain size fuel res.2.2.2
      (res.1.take res.2.1 ++ rest.1, rest.2)

/-- The states of health.State (package atsu/goat/health) that this repository names. -/
inductive health.State where
  | Blue
  | Green
  | Red
deriving DecidableEq, Repr

/-- RelayStatus describes the health of the relay. A field of interface type is none
when it is left nil. -/
structure RelayStatus where
  Health : health.State
  Mode : String
  LastPingTime : Int := 0
  Connected : Bool := false
  ConnectTime : Int := 0
  ConnectCount : Int := 0
  RpcCount : Int := 0
  RpcsCounter : Option Metric := none
  ConnectCounter : Option Metric := none
  RpcLatencySecs : Option Metric := none
  PingLatencySecs : Option Metric := none
deriving DecidableEq, Repr

/-- Method Unix of time.Time for a time kept in Unix nanoseconds; none is the zero
time.Time, whose Unix time is that of January 1 of year 1. -/
def unixSeconds : Option Int → Int
  | some ns => ns / 1000000000
  | none => -62135596800

/-- Method Status creates and returns a RelayStatus for the current status. -/
def Relay.Status (r : Relay) : RelayStatus :=
  let h : health.State := if !r.isConnected ∧ r.Mode ≠ OFF then .Red else .Green
  let status : RelayStatus :=
    { Health := h
      Mode := RelayMode.String r.Mode
      LastPingTime := unixSeconds r.LastPingTime
      Connected := r.isConnected
      ConnectTime := r.connectTime
      RpcsCounter := some r.rpcsCounter
      ConnectCounter := some r.connectCounter
      ConnectCount := r.connectCnt }
  if r.Mode = PassThrough then
    { status with
      RpcLatencySecs := some r.rpcHistogram, PingLatencySecs := some r.pingHistogram }
  else status

/-- Method Close: closes the rpc client if there is one (an error is only logged), then
closes doneCh; closing a channel that is already closed panics. Returns the Relay and
the clients that were closed. -/
def Relay.Close (r : Relay) : Option (Relay × List RpcClient) :=
  let closed : List RpcClient :=
    match r.rpcClient with
    | some c => [c]
    | none => []
  if r.doneCh then none else some ({ r with doneCh := true }, closed)

end relay

/-! # Package util -/

namespace util

/-- The function strings.HasPrefix. -/
def HasPrefix (s p : String) : Bool := p.toList.isPrefixOf s.toList

/-- The function strings.Trim: s without the leading and trailing characters that occur
in cutset. -/
def Trim (s cutset : String) : String :=
  String.mk (((s.toList.dropWhile (fun c => c ∈ cutset.toList)).reverse.dropWhile
    (fun c => c ∈ cutset.toList)).reverse)

/-- The function strings.TrimPrefix: s without the leading p, if it starts with p. -/
def TrimPrefix (s p : String) : String :=
  if HasPrefix s p then String.mk (s.toList.drop p.toList.length) else s

/-- The function strings.Join. -/
def Join (elems : List String) (sep : String) : String := String.intercalate sep elems

/-- A value stored in the map ParseArgs builds: the boolean of a lone flag or the string
of a pair. -/
inductive Value where
  | bool (b : Bool)
  | str (s : String)
deriving DecidableEq, Repr

/-- A Go map from string to value, as its entries, each key once, in the order in which
the keys were first set. -/
abbrev Pairs := List (String × Value)

/-- The assignment pairs[k] = v. -/
def Pairs.set (m : Pairs) (k : String) (v : Value) : Pairs :=
  if m.any (fun e => e.1 == k) then m.map (fun e => if e.1 == k then (k, v) else e)
  else m ++ [(k, v)]

/-- The lookup pairs[k]. -/
def Pairs.get (m : Pairs) (k : String) : Option Value :=
  (m.find? (fun e => e.1 == k)).map (fun e => e.2)

/-- The loop of ParseArgs from index i on, given the arguments args[i:] still to visit, the
value of flg and the map so far. The first equation is the exit of the loop, the
second the iteration on the last argument, the third an iteration with a next argument,
after which the loop goes on at next or, if next was taken as a value, behind it. -/
def ParseArgs.loop : List String → String → Pairs → Pairs
  | [], _, pairs => pairs
  | [a], flg, pairs =>
    let flg := if HasPrefix a "-" then Trim a "-" else flg
    if flg ≠ "" then pairs.set flg (.bool true) else pairs
  | a :: next :: rest, flg, pairs =>
    let flg := if HasPrefix a "-" then Trim a "-" else flg
    if HasPrefix next "-" then
      ParseArgs.loop (next :: rest) "" (pairs.set flg (.bool true))
    else
      ParseArgs.loop rest "" (pairs.set flg (.str (TrimPrefix next "-")))

/-- ParseArgs takes an argument list and converts it into a map. -/
def ParseArgs (args : List String) : Pairs :=
  ParseArgs.loop args "" []

/-- A template of text/template: its name and its text. -/
structure Template where
  Name : String
  text : String := ""
deriving DecidableEq, Repr

/-- A non-nil template set of text/template: the templates associated with it. -/
abbrev Templates := List Template

/-- Method Lookup of a template set: the template with the given name, if there is one. -/
def Templates.Lookup (t : Templates) (name : String) : Option Template :=
  t.find? (fun tpl => tpl.Name == name)

/-- The name FindTemplate looks up in the iteration with index i. -/
def tplname (args : List String) (i : Nat) : String :=
  Join (args.take i) "_" ++ ".tpl"

/-- The loop of FindTemplate from index i down to 0. -/
def FindTemplate.loop (templates : Templates) (args : List String) :
    Nat → Option Template × List String
  | 0 =>
    match templates.Lookup (tplname args 0) with
    | some tpl => (some tpl, args.drop 0)
    | none => (none, args)
  | i + 1 =>
    match templates.Lookup (tplname args (i + 1)) with
    | some tpl => (some tpl, args.drop (i + 1))
    | none => FindTemplate.loop templates args i

/-- FindTemplate takes in arguments, attempts to find the associated template, and returns
the args that followed the template. -/
def FindTemplate (templates : Templates) (args : List String) :
    Option Template × List String :=
  FindTemplate.loop templates args args.length

/-- The function filepath.IsAbs on a Unix system. -/
def IsAbs (path : String) : Bool := HasPrefix path "/"

/-- GetAbsoluteFilePath; getwd is the outcome of os.Getwd (none when it fails, and the
function panics), join is path.Join. -/
def GetAbsoluteFilePath (getwd : Option String) (join : String → String → String)
    (file : String) : Option String :=
  if !IsAbs file then
    match getwd with
    | none => none
    | some cd => some (join cd file)
  else some file

/-- A group of a flag list: a lone flag or a flag with its value. -/
inductive Group where
  | flag (k : String)
  | pair (k v : String)
deriving DecidableEq, Repr

/-- The key of a group. -/
def Group.key : Group → String
  | .flag k => k
  | .pair k _ => k

/-- The arguments a group is written as. -/
def Group.args : Group → List String
  | .flag k => ["-" ++ k]
  | .pair k v => ["-" ++ k, v]

/-- The map entry a group stands for. -/
def Group.entry : Group → String × Value
  | .flag k => (k, .bool true)
  | .pair k v => (k, .str v)

/-- The conditions on a group: the key is not empty and has no dash at either end, and
the value does not start with a dash. -/
def Group.ok : Group → Prop
  | .flag k => k ≠ "" ∧ k.toList.head? ≠ some '-' ∧ k.toList.getLast? ≠ some '-'
  | .pair k v => (k ≠ "" ∧ k.toList.head? ≠ some '-' ∧ k.toList.getLast? ≠ some '-') ∧
      HasPrefix v "-" = false

end util

/-! # Package app -/

namespace app

open relay

/-- How a start-up step ends: it returns, the process exits through log.Fatal, or it
panics. -/
inductive Outcome (α : Type) where
  | done (a : α)
  | fatal (msg : String)
  | panic (msg : String)

/-- The Slack bot, of which the application's status updater uses only the presence. -/
structure Slack where
  Debug : Bool := false
deriving DecidableEq, Repr

/-- The health reporter (health.IReporter) as what it has been told: the names of the
stats added, oldest first, and the health set last. -/
structure Reporter where
  stats : List String := []
  health : Option (health.State × String) := none
deriving DecidableEq, Repr

/-- Method AddStat of the reporter. -/
def Reporter.AddStat (hr : Reporter) (name : String) : Reporter :=
  { hr with stats := hr.stats ++ [name] }

/-- Method SetHealth of the reporter. -/
def Reporter.SetHealth (hr : Reporter) (h : health.State) (msg : String) : Reporter :=
  { hr with health := some (h, msg) }

/-- ChatOps, with the configuration of the relay and the fields the relay start-up and the
status updater use. -/
structure ChatOps where
  Debug : Bool := false
  RelayPort : Int := 5000
  RelayHost : String := ""
  RelayPassthrough : Bool := false
  RelayHandler : Bool := false
  RelayCertFile : String := "cert.crt"
  RelayKeyFile : String := "cert.key"
  RelayInsecure : Bool := false
  RelayWhiteList : String := ".+"
  relay : Option Relay := none
  sl : Option Slack := none
  hr : Reporter := {}

/-- What InitRelay takes from outside the program: the working directory (none when
os.Getwd fails), path.Join, the certificate tls.LoadX509KeyPair yields for two files
(the zero certificate when loading fails, which is only logged), and
regexp.MustCompile (none when it panics, the pattern not being a valid expression). -/
structure Env where
  getwd : Option String
  join : String → String → String
  loadKeyPair : String → String → String
  compile : String → Option Regexp

/-- The mode and TLS configuration InitRelay chooses after its check of the two flags. -/
def ChatOps.relayMode (c : ChatOps) (env : Env) : Outcome (RelayMode × TLSConfig) :=
  let conf : TLSConfig := { InsecureSkipVerify := c.RelayInsecure }
  if c.RelayHandler then .done (Handler, conf)
  else if c.RelayPassthrough then
    match util.GetAbsoluteFilePath env.getwd env.join c.RelayCertFile,
      util.GetAbsoluteFilePath env.getwd env.join c.RelayKeyFile with
    | some cf, some kf =>
      .done (PassThrough, { conf with Certificates := [env.loadKeyPair cf kf] })
    | _, _ => .panic "getwd"
  else .done (OFF, conf)

/-- InitRelay. The whitelist pattern is compiled by NewRelay with regexp.MustCompile, which
panics on a pattern that is not a valid expression. -/
def ChatOps.InitRelay (c : ChatOps) (env : Env) : Outcome ChatOps :=
  if c.RelayHandler ∧ c.RelayPassthrough then
    .fatal "relay handler and passthrough modes are mutually exclusive."
  else
    match c.relayMode env with
    | .fatal msg => .fatal msg
    | .panic msg => .panic msg
    | .done (mode, conf) =>
      match env.compile c.RelayWhiteList with
      | none => .panic "regexp: Compile"
      | some whitelist =>
        let r := NewRelay c.RelayHost c.RelayPort whitelist mode conf
        let res := r.Init
        match res.2 with
        | some err => .fatal ("relay init failed mode: " ++ mode ++ " err: " ++ err)
        | none => .done { c with relay := some (res.1.SetDebug c.Debug) }

/-- A network action the relay is asked for. -/
inductive NetAction where
  | listen (port : Int)
  | dial (host : String) (port : Int)
deriving DecidableEq, Repr

/-- StartRelay, as the network actions it asks the relay for: Listen in passthrough mode,
Connect in handler mode. Without a relay it dereferences nil. -/
def ChatOps.StartRelay (c : ChatOps) : Option (List NetAction) :=
  match c.relay with
  | none => none
  | some r =>
    some ((if c.RelayPassthrough then [NetAction.listen r.Port] else []) ++
      (if c.RelayHandler then [NetAction.dial r.Host r.Port] else []))

/-- The relay part of Run: InitRelay, and then, if the process is still running,
StartRelay; the outcome and the network actions asked for. -/
def ChatOps.runRelay (c : ChatOps) (env : Env) : Outcome ChatOps × List NetAction :=
  match c.InitRelay env with
  | .done c1 =>
    match c1.StartRelay with
    | some acts => (.done c1, acts)
    | none => (.panic "nil relay", [])
  | .fatal msg => (.fatal msg, [])
  | .panic msg => (.panic msg, [])

/-- One tick of the loop of StartStatusUpdater. Without a relay it dereferences nil. -/
def ChatOps.statusTick (c : ChatOps) : Option ChatOps :=
  match c.relay with
  | none => none
  | some r =>
    let h := health.State.Green
    let msg := ""
    let rstatus := r.Status
    let step1 : Reporter × health.State :=
      if (rstatus.Mode : RelayMode) ≠ OFF then
        (c.hr.AddStat "relay", if rstatus.Health ≠ h then rstatus.Health else h)
      else (c.hr, h)
    let hr :=
      if r.Mode ≠ PassThrough ∧ c.sl ≠ none then
        (step1.1.AddStat "slack").AddStat "helpers"
      else step1.1
    some { c with hr := hr.SetHealth step1.2 msg }

/-- An environment in which the working directory is /srv, a certificate is named by
its certificate file, and patterns are compiled by Compile. -/
def sampleEnv : Env :=
  { getwd := some "/srv", join := fun a b => a ++ "/" ++ b, loadKeyPair := fun cf _ => cf,
    compile := Compile }

/-- A configuration that asks for both relay modes. -/
def bothModes : ChatOps := { RelayHandler := true, RelayPassthrough := true }

/-- A configuration that asks for the handler mode only, with a whitelist that is not
a valid expression. -/
def handlerBadWhitelist : ChatOps := { RelayHandler := true, RelayWhiteList := "(" }

/-- A configuration that asks for the passthrough mode only. -/
def passthroughOnly : ChatOps := { RelayPassthrough := true }

/-- An environment in which the working directory cannot be read. -/
def noWorkdirEnv : Env :=
  { getwd := none, join := fun a b => a ++ "/" ++ b, loadKeyPair := fun cf _ => cf,
    compile := Compile }

/-- A configuration that asks for the handler mode only. -/
def handlerOnly : ChatOps := { RelayHandler := true, RelayHost := "front", Debug := true }

/-- An application with a Slack bot and a Relay that has nothing set but its mode, as the
test of the status updater sets it up. -/
def withSlack (mode : RelayMode) : ChatOps :=
  { relay := some { Host := "", Port := 0, WhiteList := .empty, Mode := mode }, sl := some {} }

end app

/-! # Package bot -/

namespace bot

open relay

/-! ## Go package path, on strings as byte sequences -/

/-- The byte of the slash. -/
def slash : UInt8 := 47

/-- The byte of the dot. -/
def dot : UInt8 := 46

/-- The byte of the star. -/
def star : UInt8 := 42

/-- The function path.Split: the path up to and including its final slash, and what
follows that slash; without a slash the first part is empty. -/
def Split (p : Bytes) : Bytes × Bytes :=
  ((p.reverse.dropWhile (fun c => c ≠ slash)).reverse,
    (p.reverse.takeWhile (fun c => c ≠ slash)).reverse)

/-- The elements of a path between its slashes. -/
def elements : Bytes → List Bytes
  | [] => [[]]
  | c :: cs =>
    if c = slash then [] :: elements cs
    else
      match elements cs with
      | [] => [[c]]
      | e :: es => (c :: e) :: es

/-- One element processed by path.Clean; the elements kept so far are held last first.
Empty and dot elements are dropped; a dot-dot element removes the element before it,
unless there is none or it is a dot-dot itself: then it is dropped in a rooted path
and kept otherwise. -/
def cleanStep (rooted : Bool) (kept : List Bytes) (e : Bytes) : List Bytes :=
  if e = [] ∨ e = [dot] then kept
  else if e = [dot, dot] then
    match kept with
    | [] => if rooted then [] else [e]
    | top :: rest => if top = [dot, dot] then e :: kept else rest
  else e :: kept

/-- The function path.Clean: the shortest path equivalent to the given one. -/
def Clean (p : Bytes) : Bytes :=
  if p = [] then [dot]
  else
    let rooted : Bool := p.head? = some slash
    let kept := (elements p).foldl (cleanStep rooted) []
    let body := List.intercalate [slash] kept.reverse
    if rooted then slash :: body
    else if body = [] then [dot] else body

/-- The function path.Dir: all but the last element of the path, cleaned. -/
def Dir (p : Bytes) : Bytes := Clean (Split p).1

/-- The function path.Join: the elements joined with slashes, leading empty elements
ignored, and the result cleaned; the empty string when all elements are empty. -/
def Join (elem : List Bytes) : Bytes :=
  match elem.dropWhile (fun e => e = []) with
  | [] => []
  | es => Clean (List.intercalate [slash] es)

/-! ## TruncatePath -/

/-- The loop of TruncatePath, for at most fuel iterations: none when no candidate of
length at most max has been reached within them. -/
def TruncatePath.loop (mnt : Bytes) (max : Int) : Nat → Bytes → Option Bytes
  | 0, _ => none
  | fuel + 1, base =>
    let base := Dir base
    let out := Join [base, [star], mnt]
    if (out.length : Int) ≤ max then some out
    else TruncatePath.loop mnt max fuel base

/-- TruncatePath is a helper for trimming paths to a specific size limit. Its loop is
run for at most fuel iterations; none means it has not returned within them. -/
def TruncatePath (fuel : Nat) (p : Bytes) (max : Int) : Option Bytes :=
  if max < 1 then some []
  else if (p.length : Int) > max then
    let sp := Split p
    let base := sp.1
    let mnt := sp.2
    let start : Int := (mnt.length : Int) - (max - 1)
    if (mnt.length : Int) > max ∧ start > 0 then
      some (star :: mnt.drop start.toNat)
    else
      TruncatePath.loop mnt max fuel base
  else some p

/-! ## The two-way cache

Keys and values are Go interface values; here both are of one type with decidable
equality. Times are Unix nanoseconds, durations nanoseconds. The expiration that every
operation starts in a goroutine when it returns is the separate transition expire,
taken at one reading of the clock. -/

/-- The map sync.Map, as an association list holding each key at most once. -/
abbrev SyncMap (κ ν : Type) := List (κ × ν)

/-- Method Load of sync.Map. -/
def SyncMap.Load {κ ν : Type} [DecidableEq κ] (m : SyncMap κ ν) (key : κ) : Option ν :=
  (m.find? (fun kv => kv.1 = key)).map (fun kv => kv.2)

/-- Method Delete of sync.Map. -/
def SyncMap.Delete {κ ν : Type} [DecidableEq κ] (m : SyncMap κ ν) (key : κ) : SyncMap κ ν :=
  m.filter (fun kv => kv.1 ≠ key)

/-- Method Store of sync.Map. -/
def SyncMap.Store {κ ν : Type} [DecidableEq κ] (m : SyncMap κ ν) (key : κ) (val : ν) :
    SyncMap κ ν :=
  (key, val) :: m.Delete key

/-- The largest duration, which time.Since yields for the zero time. -/
def maxDuration : Int := 9223372036854775807

/-- Method Unix of a time: its whole seconds. -/
def Unix (ns : Int) : Int := ns / 1000000000

/-- An entry of the expiry queue; value holds the key. -/
structure entry (α : Type) where
  born : Int
  seen : Int := 0
  value : α
  deriving DecidableEq

/-- TwoWayCache is a cache that can be looked up by key and by value. lastex is none
for the zero time. -/
structure TwoWayCache (α : Type) where
  m1 : SyncMap α α := []
  m2 : SyncMap α α := []
  seen : SyncMap α Int := []
  expiry : List (entry α) := []
  capacity : Int
  ttl : Int
  lastex : Option Int := none

/-- NewCache creates a cache with the given time-to-live and capacity. -/
def NewCache (α : Type) (duration : Int) (capacity : Int) : TwoWayCache α :=
  { ttl := duration, capacity := capacity, expiry := [] }

variable {α : Type} [DecidableEq α]

/-- The time since the previous expiration. -/
def TwoWayCache.sinceLastex (t : TwoWayCache α) (now : Int) : Int :=
  match t.lastex with
  | none => maxDuration
  | some l => now - l

/-- Method timeToExpire: over capacity and we haven't tried to expire since last time. -/
def TwoWayCache.timeToExpire (t : TwoWayCache α) (now : Int) : Bool :=
  decide ((t.expiry.length : Int) > t.capacity) && decide (t.sinceLastex now > t.ttl)

/-- The loop of expireOldEntries from queue index i on, over the rest of the queue;
expired is the index of the last expired entry. -/
def TwoWayCache.expireFrom (now : Int) :
    List (entry α) → Int → TwoWayCache α → Int → TwoWayCache α × Int
  | [], _, t, expired => (t, expired)
  | exp :: rest, i, t, expired =>
    if now - exp.born < t.ttl then (t, expired)
    else
      let key := exp.value
      let last := t.seen.Load key
      if last = none ∨ last = some (Unix exp.born) then
        match t.m1.Load key with
        | some val =>
          TwoWayCache.expireFrom now rest (i + 1)
            { t with m1 := t.m1.Delete key, m2 := t.m2.Delete val, seen := t.seen.Delete key } i
        | none => TwoWayCache.expireFrom now rest (i + 1) t expired
      else TwoWayCache.expireFrom now rest (i + 1) t expired

/-- Method expireOldEntries. -/
def TwoWayCache.expireOldEntries (t : TwoWayCache α) (now : Int) : TwoWayCache α :=
  let res := TwoWayCache.expireFrom now t.expiry 0 t (-1)
  if res.2 > -1 then
    { res.1 with expiry := res.1.expiry.drop (res.2 + 1).toNat, lastex := some now }
  else res.1

/-- Method expire. -/
def TwoWayCache.expire (t : TwoWayCache α) (now : Int) : TwoWayCache α :=
  if t.timeToExpire now then t.expireOldEntries now else t

/-- Method addExpiry. -/
def TwoWayCache.addExpiry (t : TwoWayCache α) (tm : Int) (val : α) : TwoWayCache α :=
  { t with expiry := t.expiry ++ [{ born := tm, value := val }] }

/-- Method Add: add a new key value pair to the cache. -/
def TwoWayCache.Add (t : TwoWayCache α) (key val : α) (now : Int) : TwoWayCache α :=
  match t.m1.Load key with
  | some oldval =>
    if val = oldval then { t with seen := t.seen.Store key (Unix now) }
    else ({ t with m2 := t.m2.Delete oldval } : TwoWayCache α).addExpiry now key
  | none =>
    ({ t with m1 := t.m1.Store key val, m2 := t.m2.Store val key,
              seen := t.seen.Store key (Unix now) } : TwoWayCache α).addExpiry now key

/-- Method GetByKey: the value and true, or nil and false; with the cache afterwards. -/
def TwoWayCache.GetByKey (t : TwoWayCache α) (key : α) (now : Int) :
    (Option α × Bool) × TwoWayCache α :=
  match t.m1.Load key with
  | some v => ((some v, true), ({ t with seen := t.seen.Store key (Unix now) } : TwoWayCache α).addExpiry now key)
  | none => ((none, false), t)

/-- Method GetByValue: the key and true, or nil and false; with the cache afterwards.
The clock is read a second time for the seen map. -/
def TwoWayCache.GetByValue (t : TwoWayCache α) (val : α) (now now2 : Int) :
    (Option α × Bool) × TwoWayCache α :=
  match t.m2.Load val with
  | some k => ((some k, true), ({ t with seen := t.seen.Store k (Unix now2) } : TwoWayCache α).addExpiry now k)
  | none => ((none, false), t)

/-- Method Clear. -/
def TwoWayCache.Clear (t : TwoWayCache α) : TwoWayCache α :=
  { t with m1 := [], m2 := [], seen := [], expiry := [] }

/-! ## The error history of Slack -/

/-- The fields of Slack that recordError touches. -/
structure Slack where
  errorsLastHour : Metric := []
  errorCount : Int := 0
  errorTimes : List Int := []
  errorsRecent : List String := []

/-- NewSlack, as far as the error history goes. -/
def NewSlack : Slack := {}

/-- Method recordError; now is the reading of the clock in seconds. The slice s[1:100]
holds the elements at indices 1 to 99. -/
def Slack.recordError (s : Slack) (err : Option Error) (now : Int) : Slack :=
  let s := { s with errorsLastHour := s.errorsLastHour.Add 1 }
  let s := if s.errorTimes.length > 100 then { s with errorTimes := (s.errorTimes.drop 1).take 99 } else s
  let s := { s with errorTimes := s.errorTimes ++ [now] }
  let s := if s.errorsRecent.length > 10 then { s with errorsRecent := (s.errorsRecent.drop 1).take 9 } else s
  let s := match err with
    | some e => { s with errorsRecent := s.errorsRecent ++ [e] }
    | none => s
  { s with errorCount := s.errorCount + 1 }

/-- A run of recordError calls, each with its error and clock reading. -/
def Slack.recordErrors (s : Slack) (calls : List (Option Error × Int)) : Slack :=
  calls.foldl (fun s c => s.recordError c.1 c.2) s

end bot

/-! # Theorems -/

namespace relay

theorem copy_make (b : Bytes) : copy (make b.length) b = (b, b.length) := by
  simp [copy, make]

theorem Response.Write_eq (r : Response) (b : Bytes) :
    r.Write b = ({ r with Body := b }, b.length, none) := by
  simp [Response.Write, copy_make]

end relay

namespace relay

/-! ## RelayRequest and RelayHandler -/

theorem writes_foldl (bs : List Bytes) (b : Bytes) (r : Response) :
    (bs ++ [b]).foldl (fun r x => (r.Write x).1) r = { r with Body := b } := by
  induction bs generalizing r with
  | nil => simp [Response.Write_eq]
  | cons x xs ih => simp [List.foldl_cons, Response.Write_eq] at ih ⊢; rw [ih]

/-- Claim C4. Response.Write returns (len(b), nil), keeps Status and makes Body exactly b;
after any non-empty sequence of writes the body is the last sequence written, and it
equals the concatenation of all of them only when everything written before was empty. -/
theorem Response_Write_overwrites (r : Response) (b : Bytes) (bs : List Bytes) :
    (r.Write b).2 = (b.length, none) ∧ (r.Write b).1.Status = r.Status ∧
      (r.Write b).1.Body = b ∧
      ((bs ++ [b]).foldl (fun r x => (r.Write x).1) r).Body = b ∧
      ((bs ++ [b]).foldl (fun r x => (r.Write x).1) r).Status = r.Status ∧
      (((bs ++ [b]).foldl (fun r x => (r.Write x).1) r).Body = (bs ++ [b]).flatten ↔
        bs.flatten = []) := by
  rw [writes_foldl]
  simp [Response.Write_eq]

end relay

namespace relay

theorem record_httpError_500 :
    record (httpError [] "relay failure" 500) =
      some { Code := 500, Body := utf8 "relay failure" ++ [10], wroteHeader := true } := by
  decide

theorem tunnelOver_error (wire : Wire) (remote : Relayer) (counter : Metric)
    (client : RpcClient) (args : FauxRequest) (reply : Response) (e : Error)
    (hw : wire args.URL = .error e) :
    tunnelOver wire remote counter client RelayerRelayRequest args reply = (some e, reply) := by
  simp [tunnelOver, hw]

end relay

namespace relay

/-- Claim C3. With a readable body and no rpc client attached, RelayHandler issues no
remote call (its outcome does not depend on what a call would return), leaves the Relay,
in particular the rpc counter and the latency histogram, as they were, and answers with
http.Error: status 500 and the message relay failure, newline-terminated. -/
theorem RelayHandler_no_client (r : Relay) (call : RpcCall) (start finish : Int)
    (w : ResponseWriter) (req : Request)
    (hread : (ReadAll req.Body).2 = none) (hnil : r.rpcClient = none) :
    (r.RelayHandler call start finish w req).calls = [] ∧
      (r.RelayHandler call start finish w req).relay = r ∧
      (r.RelayHandler call start finish w req).relay.rpcsCounter = r.rpcsCounter ∧
      (r.RelayHandler call start finish w req).relay.rpcHistogram = r.rpcHistogram ∧
      (r.RelayHandler call start finish w req).w =
        w ++ [.Header, .WriteHeader 500, .Write (utf8 "relay failure" ++ [10])] ∧
      record (r.RelayHandler call start finish [] req).w =
        some { Code := 500, Body := utf8 "relay failure" ++ [10], wroteHeader := true } ∧
      (∀ (call2 : RpcCall) (start2 finish2 : Int),
        (r.RelayHandler call2 start2 finish2 w req).w =
            (r.RelayHandler call start finish w req).w ∧
          (r.RelayHandler call2 start2 finish2 w req).relay =
            (r.RelayHandler call start finish w req).relay) := by
  have hres : ∀ (c : RpcCall) (s f : Int) (w0 : ResponseWriter),
      r.RelayHandler c s f w0 req =
        { relay := r, w := httpError w0 "relay failure" 500, calls := [] } := by
    intro c s f w0
    simp [Relay.RelayHandler, hread, hnil]
  refine ⟨?_, ?_, ?_, ?_, ?_, ?_, ?_⟩
  · rw [hres]
  · rw [hres]
  · rw [hres]
  · rw [hres]
  · rw [hres]; simp [httpError]
  · rw [hres]; exact record_httpError_500
  · intro c2 s2 f2
    rw [hres, hres]
    exact ⟨rfl, rfl⟩

/-- Witness of C3: a freshly initialised PassThrough Relay, never connected, and the
sample request. -/
theorem RelayHandler_no_client_witness :
    ((NewRelay "" 5000 (.plus .any) PassThrough {}).Init.1.RelayHandler
        (tunnel sampleRelayer []) 0 1 [] sampleRequest).calls = [] ∧
      record ((NewRelay "" 5000 (.plus .any) PassThrough {}).Init.1.RelayHandler
        (tunnel sampleRelayer []) 0 1 [] sampleRequest).w =
        some { Code := 500, Body := utf8 "relay failure" ++ [10], wroteHeader := true } :=
  have h := RelayHandler_no_client (NewRelay "" 5000 (.plus .any) PassThrough {}).Init.1
    (tunnel sampleRelayer []) 0 1 [] sampleRequest (by rfl) (by rfl)
  ⟨h.1, h.2.2.2.2.2.1⟩

end relay

namespace relay

/-! ## The whitelist -/

theorem starEnds_ne_nil (step : Nat → List Nat) (fuel i : Nat) : starEnds step fuel i ≠ [] := by
  cases fuel <;> simp [starEnds]

theorem plus_any_ends (pre post : List Char) (c : Char) (hc : c ≠ '\n') :
    (Regexp.plus Regexp.any).ends (pre ++ c :: post) pre.length ≠ [] := by
  have hget : (pre ++ c :: post).get? pre.length = some c := by
    rw [List.get?_eq_getElem?, List.getElem?_append_right (le_refl _)]
    simp
  simp only [Regexp.ends, hget, if_neg hc, List.flatMap_cons, List.flatMap_nil, List.append_nil]
  exact starEnds_ne_nil _ _ _

theorem MatchString_plus_any (t : List Char) (c : Char) (hmem : c ∈ t) (hc : c ≠ '\n') :
    (Regexp.plus Regexp.any).MatchString (String.mk t) = true := by
  obtain ⟨pre, post, rfl⟩ := List.append_of_mem hmem
  simp only [Regexp.MatchString, List.any_eq_true, List.mem_range]
  refine ⟨pre.length, by simp; omega, ?_⟩
  have := plus_any_ends pre post c hc
  simpa [List.isEmpty_iff] using this

theorem dotted_mem (a b c d : UInt8) : '.' ∈ dotted a b c d := by
  simp [dotted]

theorem hexGroups_mem (g h : Nat) (gs : List Nat) : ':' ∈ hexGroups (g :: h :: gs) := by
  simp [hexGroups, List.intercalate, List.intersperse]

theorem ip6Text_mem (g h : Nat) (gs : List Nat) : ':' ∈ ip6Text (g :: h :: gs) := by
  unfold ip6Text
  split
  · exact hexGroups_mem g h gs
  · simp

theorem IP_String_mem (ip : IP) : ∃ c ∈ ip.String.toList, c ≠ '\n' := by
  unfold IP.String
  split
  · exact ⟨'<', by decide, by decide⟩
  · exact ⟨'.', by simpa using dotted_mem _ _ _ _, by decide⟩
  · split
    · exact ⟨'.', by simpa using dotted_mem _ _ _ _, by decide⟩
    · exact ⟨':', by simpa [groups16] using ip6Text_mem _ _ _, by decide⟩
  · exact ⟨'?', by simp, by decide⟩

theorem MatchString_default (ip : IP) :
    (Regexp.plus Regexp.any).MatchString ip.String = true := by
  obtain ⟨c, hmem, hc⟩ := IP_String_mem ip
  exact MatchString_plus_any _ c hmem hc

/-- Claim C6. AddrAllowed is true exactly for a TCP address whose IP, in text form,
contains a match of the whitelist pattern; port and zone play no part; an address of any
other type is rejected whatever the pattern. The pattern 1.2.3.\d+ admits 1.2.3.100 (given
as 4 or as 16 bytes) and rejects 1.2.4.100, so does the pattern with escaped dots, and the
default pattern .+ admits every TCP peer. -/
theorem AddrAllowed_whitelist (r : Relay) (addr : Addr) :
    (r.AddrAllowed addr = true ↔
        ∃ tcp : TCPAddr, addr = .tcp tcp ∧ r.WhiteList.MatchString tcp.IP.String = true) ∧
      (∀ (tcp : TCPAddr) (port : Int) (zone : String),
        r.AddrAllowed (.tcp { tcp with Port := port, Zone := zone }) =
          r.AddrAllowed (.tcp tcp)) ∧
      (∀ (network text : String), r.AddrAllowed (.other network text) = false) ∧
      (∀ (port : Int), (Compile "1.2.3.\\d+").map (fun re =>
        (NewRelay "" 0 re PassThrough {}).AddrAllowed
          (.tcp { IP := [1, 2, 3, 100], Port := port })) = some true) ∧
      (∀ (port : Int), (Compile "1.2.3.\\d+").map (fun re =>
        (NewRelay "" 0 re PassThrough {}).AddrAllowed
          (.tcp { IP := [0, 0, 0, 0, 0, 0, 0, 0, 0, 0, 255, 255, 1, 2, 3, 100], Port := port }))
          = some true) ∧
      (∀ (port : Int), (Compile "1.2.3.\\d+").map (fun re =>
        (NewRelay "" 0 re PassThrough {}).AddrAllowed
          (.tcp { IP := [1, 2, 4, 100], Port := port })) = some false) ∧
      (∀ (port : Int), (Compile "1\\.2\\.3\\.\\d+").map (fun re =>
        ((NewRelay "" 0 re PassThrough {}).AddrAllowed
            (.tcp { IP := [1, 2, 3, 100], Port := port }),
          (NewRelay "" 0 re PassThrough {}).AddrAllowed
            (.tcp { IP := [1, 2, 4, 100], Port := port }))) = some (true, false)) ∧
      (∀ (tcp : TCPAddr), (Compile ".+").map (fun re =>
        (NewRelay "" 0 re PassThrough {}).AddrAllowed (.tcp tcp)) = some true) := by
  refine ⟨?_, ?_, ?_, ?_, ?_, ?_, ?_, ?_⟩
  · cases addr with
    | tcp a => simp [Relay.AddrAllowed]
    | other n t => simp [Relay.AddrAllowed]
  · intro tcp port zone; rfl
  · intro n t; rfl
  · intro port
    have h : (Compile "1.2.3.\\d+").map (fun re => re.MatchString (IP.String [1, 2, 3, 100]))
        = some true := by decide
    exact h
  · intro port
    have h : (Compile "1.2.3.\\d+").map (fun re =>
        re.MatchString (IP.String [0, 0, 0, 0, 0, 0, 0, 0, 0, 0, 255, 255, 1, 2, 3, 100]))
        = some true := by decide
    exact h
  · intro port
    have h : (Compile "1.2.3.\\d+").map (fun re => re.MatchString (IP.String [1, 2, 4, 100]))
        = some false := by decide
    exact h
  · intro port
    have h : (Compile "1\\.2\\.3\\.\\d+").map (fun re =>
        (re.MatchString (IP.String [1, 2, 3, 100]), re.MatchString (IP.String [1, 2, 4, 100])))
        = some (true, false) := by decide
    exact h
  · intro tcp
    have hc : Compile ".+" = some (.plus .any) := by decide
    rw [hc]
    simp [Relay.AddrAllowed, NewRelay, MatchString_default]

/-! ## Connect -/

theorem Connect_append (pre post : List Bool) :
    Connect (pre ++ post) = post.foldl Backoff.dialed (Connect pre) := by
  simp [Connect, List.foldl_append]

theorem failures_small (n : Nat) (hn : n ≤ 5) :
    (List.replicate n false).foldl Backoff.dialed {} =
      { retry := n, sleepDur := 250000000 * (n : Int) * ((n : Int) - 1) } := by
  interval_cases n <;> decide

theorem failures_large (n : Nat) :
    (List.replicate (5 + n) false).foldl Backoff.dialed {} =
      { retry := 5, sleepDur := 5000000000 } := by
  induction n with
  | zero => decide
  | succ m ih =>
    rw [← Nat.add_assoc, List.replicate_succ', List.foldl_append, ih]
    decide

theorem failures_closed (n : Nat) :
    (List.replicate n false).foldl Backoff.dialed {} =
      { retry := min (n : Int) 5,
        sleepDur := 250 * Millisecond * min (n : Int) 5 * (min (n : Int) 5 - 1) } := by
  rcases Nat.lt_or_ge n 5 with h | h
  · rw [failures_small n (by omega)]
    have : min (n : Int) 5 = n := by omega
    rw [this]; simp [Millisecond]
  · obtain ⟨m, rfl⟩ := Nat.exists_eq_add_of_le h
    rw [failures_large m]
    have : min ((5 + m : Nat) : Int) 5 = 5 := by omega
    rw [this]; simp [Millisecond]

/-- The six values the loop variables of Connect can take. -/
theorem Connect_states (dials : List Bool) :
    Connect dials ∈ ([⟨0, 0⟩, ⟨1, 0⟩, ⟨2, 500000000⟩, ⟨3, 1500000000⟩, ⟨4, 3000000000⟩,
      ⟨5, 5000000000⟩] : List Backoff) := by
  induction dials using List.reverseRecOn with
  | nil => decide
  | append_singleton ds d ih =>
    rw [Connect_append]
    simp only [List.foldl_cons, List.foldl_nil]
    generalize Connect ds = b at ih
    simp only [List.mem_cons, List.mem_singleton, List.not_mem_nil, or_false] at ih
    rcases ih with h | h | h | h | h | h <;> subst h <;> cases d <;> decide

end relay

namespace relay

/-- Claim C7. In the loop of Connect, a failed dial made while fewer than 5 failures are
counted adds 500ms times the count to the sleep delay and counts one more failure (no
64-bit wrap-around occurs), a failed dial after that changes nothing, and a successful
dial resets both to zero. Hence after n consecutive failures, from the start or from the
last success, the sleep before the next dial is 250ms * k * (k - 1) with k = min(n, 5),
which is 5s for every n from 5 on, and after any sequence of dials it is at most 5s. -/
theorem Connect_capped_backoff (pre : List Bool) (n : Nat) :
    ((Connect pre).retry < 5 →
        (Connect pre).dialed false =
          { retry := (Connect pre).retry + 1,
            sleepDur := (Connect pre).sleepDur + 500 * Millisecond * (Connect pre).retry }) ∧
      (5 ≤ (Connect pre).retry → (Connect pre).dialed false = Connect pre) ∧
      (Connect pre).dialed true = { retry := 0, sleepDur := 0 } ∧
      (Connect (List.replicate n false)).sleep =
        250 * Millisecond * min (n : Int) 5 * (min (n : Int) 5 - 1) ∧
      (Connect (pre ++ true :: List.replicate n false)).sleep =
        250 * Millisecond * min (n : Int) 5 * (min (n : Int) 5 - 1) ∧
      (5 ≤ n → (Connect (pre ++ true :: List.replicate n false)).sleep = 5 * Second ∧
        (Connect (List.replicate n false)).sleep = 5 * Second) ∧
      0 ≤ (Connect pre).sleep ∧ (Connect pre).sleep ≤ 5 * Second := by
  have hafter : Connect (pre ++ true :: List.replicate n false) =
      Connect (List.replicate n false) := by
    rw [Connect_append, List.foldl_cons]
    rfl
  have hsleep : (Connect (List.replicate n false)).sleep =
      250 * Millisecond * min (n : Int) 5 * (min (n : Int) 5 - 1) := by
    unfold Connect
    rw [failures_closed]
    unfold Backoff.sleep
    split
    · rfl
    · rename_i h
      have h0 : min (n : Int) 5 = 0 := by
        simp only [gt_iff_lt, not_lt] at h
        omega
      rw [h0]; simp
  have hst := Connect_states pre
  simp only [List.mem_cons, List.mem_singleton, List.not_mem_nil, or_false] at hst
  refine ⟨?_, ?_, ?_, hsleep, by rw [hafter, hsleep], ?_, ?_, ?_⟩
  · intro hlt
    rcases hst with h | h | h | h | h | h <;> rw [h] at hlt ⊢ <;>
      first | decide | exact absurd hlt (by decide)
  · intro hge
    rcases hst with h | h | h | h | h | h <;> rw [h] at hge ⊢ <;>
      first | decide | exact absurd hge (by decide)
  · rcases hst with h | h | h | h | h | h <;> rw [h] <;> decide
  · intro h5
    have hk : min (n : Int) 5 = 5 := by omega
    rw [hafter, hsleep, hk]
    exact ⟨by decide, by decide⟩
  · rcases hst with h | h | h | h | h | h <;> rw [h] <;> decide
  · rcases hst with h | h | h | h | h | h <;> rw [h] <;> decide

/-- Witness of C7: after two failures one more failure adds 1s to the 500ms delay, and
after a success followed by seven failures the delay is 5s. -/
theorem Connect_capped_backoff_witness :
    (Connect [false, false]).dialed false = { retry := 3, sleepDur := 1500000000 } ∧
      (Connect ([false, false] ++ true :: List.replicate 7 false)).sleep = 5000000000 :=
  have h := Connect_capped_backoff [false, false] 7
  ⟨h.1 (by decide), (h.2.2.2.2.2.1 (by decide)).1⟩

end relay

namespace relay

/-! ## Connection bookkeeping -/

theorem connected_connectTimes (r : Relay) (a b : Int) :
    (r.connected a b).connectTimes =
      (if r.connectTimes.length > 1000 then r.connectTimes.drop 1 else r.connectTimes) ++ [b] := by
  by_cases h : r.connectTimes.length > 1000 <;> simp [Relay.connected, h]

theorem connected_fields (r : Relay) (a b : Int) :
    (r.connected a b).disconnectTimes = r.disconnectTimes ∧
      (r.connected a b).isConnected = true ∧
      (r.connected a b).connectCnt = r.connectCnt + 1 ∧
      (r.connected a b).connectTime = a ∧
      (r.connected a b).Mode = r.Mode ∧
      (r.connected a b).WhiteList = r.WhiteList ∧
      (r.connected a b).rpcClient = r.rpcClient ∧
      (r.connected a b).rpcServer = r.rpcServer ∧
      (r.connected a b).relayer = r.relayer := by
  by_cases h : r.connectTimes.length > 1000 <;> simp [Relay.connected, h]

theorem disconnected_some (r : Relay) (now : Int)
    (h : r.connectTimes.length > 1000 → r.disconnectTimes ≠ []) :
    ∃ r', r.disconnected now = some r' ∧
      r'.disconnectTimes =
        (if r.connectTimes.length > 1000 then r.disconnectTimes.drop 1
          else r.disconnectTimes) ++ [now] ∧
      r'.connectTimes = r.connectTimes ∧ r'.isConnected = false ∧
      r'.connectCnt = r.connectCnt ∧ r'.Mode = r.Mode ∧ r'.WhiteList = r.WhiteList ∧
      r'.rpcClient = r.rpcClient ∧ r'.rpcServer = r.rpcServer ∧ r'.relayer = r.relayer := by
  unfold Relay.disconnected
  by_cases hc : r.connectTimes.length > 1000
  · have hne := h hc
    have hlen : ¬ r.disconnectTimes.length < 1 := by
      have := List.length_pos.mpr hne
      omega
    simp [hc, hlen]
  · simp [hc]

theorem suffix_snoc {α : Type} (l h : List α) (x : α) (hs : l <:+ h) : l ++ [x] <:+ h ++ [x] := by
  obtain ⟨p, rfl⟩ := hs
  exact ⟨p, by simp⟩

theorem cycle_step (r : Relay) (t : Int × Int × Int) (k : Nat) (h1 h2 : List Int)
    (hc : r.connectTimes.length = min k 1001) (hd : r.disconnectTimes.length = min k 1000)
    (hs1 : r.connectTimes <:+ h1) (hs2 : r.disconnectTimes <:+ h2) :
    ∃ r', r.cycle t = some r' ∧ r'.connectTimes.length = min (k + 1) 1001 ∧
      r'.disconnectTimes.length = min (k + 1) 1000 ∧
      r'.connectTimes <:+ h1 ++ [t.2.1] ∧ r'.disconnectTimes <:+ h2 ++ [t.2.2] := by
  have hf := connected_fields r t.1 t.2.1
  have hct := connected_connectTimes r t.1 t.2.1
  have hsafe : (r.connected t.1 t.2.1).connectTimes.length > 1000 →
      (r.connected t.1 t.2.1).disconnectTimes ≠ [] := by
    intro hlen
    rw [hf.1]
    intro hnil
    rw [hnil] at hd
    rw [hct] at hlen
    split at hlen <;> simp at hlen hd <;> omega
  obtain ⟨r', hr', hdt, hcs, -⟩ := disconnected_some (r.connected t.1 t.2.1) t.2.2 hsafe
  refine ⟨r', hr', ?_, ?_, ?_, ?_⟩
  · rw [hcs, hct]
    split <;> simp <;> omega
  · rw [hdt, hct, hf.1]
    split <;> split <;> simp at * <;> omega
  · rw [hcs, hct]
    apply suffix_snoc
    split
    · exact (List.drop_suffix 1 _).trans hs1
    · exact hs1
  · rw [hdt, hf.1]
    apply suffix_snoc
    split
    · exact (List.drop_suffix 1 _).trans hs2
    · exact hs2

theorem cycles_invariant (ts : List (Int × Int × Int)) (r : Relay) (k : Nat) (h1 h2 : List Int)
    (hc : r.connectTimes.length = min k 1001) (hd : r.disconnectTimes.length = min k 1000)
    (hs1 : r.connectTimes <:+ h1) (hs2 : r.disconnectTimes <:+ h2) :
    ∃ r', r.cycles ts = some r' ∧ r'.connectTimes.length = min (k + ts.length) 1001 ∧
      r'.disconnectTimes.length = min (k + ts.length) 1000 ∧
      r'.connectTimes <:+ h1 ++ ts.map (fun t => t.2.1) ∧
      r'.disconnectTimes <:+ h2 ++ ts.map (fun t => t.2.2) := by
  induction ts generalizing r k h1 h2 with
  | nil => exact ⟨r, rfl, by simpa using hc, by simpa using hd, by simpa using hs1, by simpa using hs2⟩
  | cons t ts ih =>
    obtain ⟨r1, hr1, hc1, hd1, hs11, hs12⟩ := cycle_step r t k h1 h2 hc hd hs1 hs2
    obtain ⟨r2, hr2, hc2, hd2, hs21, hs22⟩ := ih r1 (k + 1) _ _ hc1 hd1 hs11 hs12
    refine ⟨r2, ?_, ?_, ?_, ?_, ?_⟩
    · simp only [Relay.cycles, List.foldlM_cons, hr1] at hr2 ⊢
      exact hr2
    · rw [hc2]; simp; omega
    · rw [hd2]; simp; omega
    · simpa using hs21
    · simpa using hs22

end relay

namespace relay

/-- The fields of a Relay that only connected(), disconnected() and handleConn write. -/
theorem RelayHandler_frame (r : Relay) (call : RpcCall) (start finish : Int)
    (w : ResponseWriter) (req : Request) :
    (r.RelayHandler call start finish w req).relay.Mode = r.Mode ∧
      (r.RelayHandler call start finish w req).relay.WhiteList = r.WhiteList ∧
      (r.RelayHandler call start finish w req).relay.isConnected = r.isConnected ∧
      (r.RelayHandler call start finish w req).relay.connectTimes = r.connectTimes ∧
      (r.RelayHandler call start finish w req).relay.disconnectTimes = r.disconnectTimes ∧
      (r.RelayHandler call start finish w req).relay.connectCnt = r.connectCnt ∧
      (r.RelayHandler call start finish w req).relay.rpcClient = r.rpcClient ∧
      (r.RelayHandler call start finish w req).relay.rpcServer = r.rpcServer ∧
      (r.RelayHandler call start finish w req).relay.relayer = r.relayer := by
  cases hread : (ReadAll req.Body).2 with
  | some e => simp [Relay.RelayHandler, hread]
  | none =>
    cases hc : r.rpcClient with
    | none => simp [Relay.RelayHandler, hread, hc]
    | some client =>
      cases hres : (call client RelayerRelayRequest
        (CreateFauxRequest req (ReadAll req.Body).1) {}).1 <;>
        simp [Relay.RelayHandler, hread, hc, hres]

theorem watcherWake_frame (r : Relay) (now finish : Int) (ping : Option Error × Option String)
    (res : Relay × Bool) (h : r.watcherWake now ping finish = some res) :
    res.1.Mode = r.Mode ∧ res.1.WhiteList = r.WhiteList ∧
      res.1.isConnected = r.isConnected ∧ res.1.connectTimes = r.connectTimes ∧
      res.1.disconnectTimes = r.disconnectTimes ∧ res.1.connectCnt = r.connectCnt ∧
      res.1.rpcClient = r.rpcClient ∧ res.1.rpcServer = r.rpcServer ∧
      res.1.relayer.isSome = r.relayer.isSome := by
  unfold Relay.watcherWake at h
  split at h
  · cases h; simp
  · split at h
    · split at h <;> (cases h; simp)
    · split at h
      · split at h
        · split at h
          · cases h
          · split at h <;> (cases h; simp_all)
        · cases h; simp
      · cases h; simp

theorem step_inner (s s' : Endpoint) (e : Event) (hin : e.inner = true)
    (h : s.step e = some s') :
    s'.handling = s.handling ∧ s'.relay.Mode = s.relay.Mode ∧
      s'.relay.WhiteList = s.relay.WhiteList ∧
      s'.relay.isConnected = s.relay.isConnected ∧
      s'.relay.connectTimes = s.relay.connectTimes ∧
      s'.relay.disconnectTimes = s.relay.disconnectTimes ∧
      s'.relay.connectCnt = s.relay.connectCnt ∧
      s'.relay.rpcClient = s.relay.rpcClient ∧ s'.relay.rpcServer = s.relay.rpcServer ∧
      s'.relay.relayer.isSome = s.relay.relayer.isSome := by
  cases e with
  | accept conn a b => simp [Event.inner] at hin
  | release now => simp [Event.inner] at hin
  | wake now ping finish =>
    simp only [Endpoint.step] at h
    split at h
    · cases h
    · split at h
      · split at h
        · rename_i res hres
          cases h
          have := watcherWake_frame _ _ _ _ _ hres
          simp_all
        · cases h
      · cases h
  | relay call start finish req =>
    simp only [Endpoint.step, Option.some.injEq] at h
    subst h
    have := RelayHandler_frame s.relay call start finish [] req
    simp_all
  | ping t =>
    simp only [Endpoint.step] at h
    split at h
    · split at h
      · cases h
      · cases h; simp_all [Relayer.Ping]
    · cases h
  | dispatch req =>
    simp only [Endpoint.step] at h
    split at h
    · split at h
      · cases h
      · cases h; simp_all
    · cases h

end relay

namespace relay

theorem AddrAllowed_congr (r1 r2 : Relay) (addr : Addr) (h : r1.WhiteList = r2.WhiteList) :
    r1.AddrAllowed addr = r2.AddrAllowed addr := by
  cases addr <;> simp [Relay.AddrAllowed, h]

theorem handleConnOpen_some (r r' : Relay) (conn : Conn) (a b : Int)
    (h : r.handleConnOpen conn a b = some r') :
    r'.Mode = r.Mode ∧ r'.WhiteList = r.WhiteList ∧ r'.isConnected = true ∧
      r'.connectTimes = (r.connected a b).connectTimes ∧
      r'.disconnectTimes = r.disconnectTimes ∧ r'.connectCnt = r.connectCnt + 1 ∧
      r'.rpcServer = r.rpcServer ∧ r'.relayer = r.relayer ∧
      r'.rpcClient = (if r.Mode = PassThrough ∧ r.AddrAllowed conn.RemoteAddr = true
        then some (NewClient conn) else r.rpcClient) := by
  have hf := connected_fields r a b
  have ha := AddrAllowed_congr (r.connected a b) r conn.RemoteAddr hf.2.2.2.2.2.1
  unfold Relay.handleConnOpen at h
  simp only [hf.2.2.2.2.1, ha] at h
  by_cases hm : r.Mode = PassThrough
  · by_cases hal : r.AddrAllowed conn.RemoteAddr = true
    · simp only [hm, hal, if_true] at h
      cases h
      simp_all
    · simp only [hm, hal, if_true] at h
      simp at h
      cases h
      simp_all
  · simp only [hm, if_false] at h
    split at h
    · cases h; simp_all
    · cases h

theorem handleConnOpen_isSome (r : Relay) (conn : Conn) (a b : Int)
    (h : r.Mode = PassThrough ∨ r.rpcServer.isSome = true) :
    ∃ r', r.handleConnOpen conn a b = some r' := by
  have hf := connected_fields r a b
  unfold Relay.handleConnOpen
  simp only [hf.2.2.2.2.1]
  by_cases hm : r.Mode = PassThrough
  · simp only [hm, if_true]
    split <;> exact ⟨_, rfl⟩
  · simp only [hm, if_false]
    rcases h with h | h
    · exact absurd h hm
    · rw [hf.2.2.2.2.2.2.2.1]
      obtain ⟨srv, hsrv⟩ := Option.isSome_iff_exists.mp h
      rw [hsrv]
      exact ⟨_, rfl⟩

theorem run_snoc (s : Endpoint) (es : List Event) (e : Event) :
    s.run (es ++ [e]) = (s.run es).bind (fun s1 => s1.step e) := by
  simp [Endpoint.run, List.foldlM_append]

theorem start_inv (host : String) (port : Int) (wl : Regexp) (mode : RelayMode)
    (conf : TLSConfig) : Endpoint.Inv mode wl [] (Endpoint.start host port wl mode conf) := by
  by_cases hm : mode = Handler
  · constructor <;> simp [Endpoint.start, NewRelay, Relay.Init, hm, newRelayer, Handler, PassThrough]
  · constructor <;> simp [Endpoint.start, NewRelay, Relay.Init, hm, newRelayer]

end relay

namespace relay

theorem isAccept_of_inner (e : Event) (h : e.inner = true) : e.isAccept = false := by
  cases e <;> simp_all [Event.inner, Event.isAccept]

theorem accept_mem_snoc (es : List Event) (e : Event) (h : e.isAccept = false)
    (conn : Conn) (a b : Int) :
    Event.accept conn a b ∈ es ++ [e] ↔ Event.accept conn a b ∈ es := by
  constructor
  · intro hm
    rcases List.mem_append.mp hm with hm | hm
    · exact hm
    · simp only [List.mem_singleton] at hm
      subst hm
      simp [Event.isAccept] at h
  · intro hm
    exact List.mem_append_left _ hm

theorem step_inv_inner (mode : RelayMode) (wl : Regexp) (es : List Event) (s s' : Endpoint)
    (e : Event) (hin : e.inner = true) (hinv : Endpoint.Inv mode wl es s)
    (h : s.step e = some s') : Endpoint.Inv mode wl (es ++ [e]) s' := by
  obtain ⟨h1, h2, h3, h4, h5, h6, h7, h8, h9, h10⟩ := step_inner s s' e hin h
  have hacc := isAccept_of_inner e hin
  have hal : ∀ addr, s'.relay.AddrAllowed addr = s.relay.AddrAllowed addr :=
    fun addr => AddrAllowed_congr _ _ addr h3
  constructor
  · rw [h2]; exact hinv.hMode
  · rw [h3]; exact hinv.hWhiteList
  · rw [h10]; exact hinv.hRelayer
  · rw [h9]; exact hinv.hServer
  · rw [h4, h1]; exact hinv.hConnected
  · rw [h7, List.filter_append, hinv.hCount]; simp [List.filter, hacc]
  · rw [h5]; exact hinv.hCap
  · rw [h1, h5, h6]; exact hinv.hIdle
  · rw [h1, h5, h6]; exact hinv.hBusy
  · rw [h8, hinv.hClient]
    simp only [hal, accept_mem_snoc es e hacc]
  · intro conn hc hm ha
    rw [h1] at hc
    rw [hal] at ha
    rw [h8]
    exact hinv.hCurrent conn hc hm ha

theorem step_inv_accept (mode : RelayMode) (wl : Regexp) (es : List Event) (s s' : Endpoint)
    (conn : Conn) (a b : Int) (hinv : Endpoint.Inv mode wl es s)
    (h : s.step (.accept conn a b) = some s') :
    Endpoint.Inv mode wl (es ++ [.accept conn a b]) s' ∧ s.handling = none ∧
      s'.handling = some conn ∧ s.relay.handleConnOpen conn a b = some s'.relay := by
  simp only [Endpoint.step] at h
  cases hh : s.handling with
  | some c => simp [hh] at h
  | none =>
    simp only [hh] at h
    cases ho : s.relay.handleConnOpen conn a b with
    | none => simp [ho] at h
    | some r' =>
      simp only [ho, Option.some.injEq] at h
      subst h
      obtain ⟨h1, h2, h3, h4, h5, h6, h7, h8, h9⟩ := handleConnOpen_some _ _ _ _ _ ho
      have hct := connected_connectTimes s.relay a b
      have hal : ∀ addr, r'.AddrAllowed addr = s.relay.AddrAllowed addr :=
        fun addr => AddrAllowed_congr _ _ addr h2
      have hcap := hinv.hCap
      have hidle := hinv.hIdle hh
      refine ⟨?_, rfl, rfl, rfl⟩
      constructor
      · simp only; rw [h1]; exact hinv.hMode
      · simp only; rw [h2]; exact hinv.hWhiteList
      · simp only; rw [h8]; exact hinv.hRelayer
      · simp only; rw [h7]; exact hinv.hServer
      · simp only; rw [h3]; rfl
      · simp only; rw [h6, List.filter_append, hinv.hCount]
        simp [List.filter, Event.isAccept]
      · simp only; rw [h4, hct]
        split <;> simp <;> omega
      · intro hc; simp at hc
      · intro _
        simp only
        rw [h4, h5, hct, hidle]
        split <;> simp
        omega
      · simp only
        rw [h9]
        simp only [hal]
        constructor
        · intro hne
          by_cases hnew : s.relay.Mode = PassThrough ∧ s.relay.AddrAllowed conn.RemoteAddr = true
          · refine ⟨hinv.hMode ▸ hnew.1, conn, a, b, by simp, hnew.2⟩
          · rw [if_neg hnew] at hne
            obtain ⟨hm, c0, a0, b0, hmem, hall⟩ := hinv.hClient.mp hne
            exact ⟨hm, c0, a0, b0, List.mem_append_left _ hmem, hall⟩
        · rintro ⟨hm, c0, a0, b0, hmem, hall⟩
          rcases List.mem_append.mp hmem with hmem | hmem
          · have hold := hinv.hClient.mpr ⟨hm, c0, a0, b0, hmem, hall⟩
            split
            · simp
            · exact hold
          · simp only [List.mem_singleton, Event.accept.injEq] at hmem
            obtain ⟨rfl, -, -⟩ := hmem
            rw [if_pos ⟨hinv.hMode.trans hm, hall⟩]
            simp
      · intro c0 hc hm ha
        simp only at hc ha ⊢
        simp only [Option.some.injEq] at hc
        subst hc
        rw [hal] at ha
        rw [h9, if_pos ⟨hinv.hMode.trans hm, ha⟩]

theorem step_inv_release (mode : RelayMode) (wl : Regexp) (es : List Event) (s s' : Endpoint)
    (now : Int) (hinv : Endpoint.Inv mode wl es s)
    (h : s.step (.release now) = some s') :
    Endpoint.Inv mode wl (es ++ [.release now]) s' ∧ s.handling ≠ none ∧
      s'.handling = none ∧ s.relay.disconnected now = some s'.relay := by
  simp only [Endpoint.step] at h
  cases hh : s.handling with
  | none => simp [hh] at h
  | some c =>
    simp only [hh] at h
    cases hd : s.relay.disconnected now with
    | none => simp [hd] at h
    | some r' =>
      simp only [hd, Option.some.injEq] at h
      subst h
      have hbusy := hinv.hBusy (by simp [hh])
      have hsafe : s.relay.connectTimes.length > 1000 → s.relay.disconnectTimes ≠ [] := by
        intro hlen hnil
        have := hbusy.2
        rw [hnil] at this
        simp at this
        omega
      obtain ⟨r2, hr2, h1, h2, h3, h4, h5, h6, h7, h8, h9⟩ :=
        disconnected_some s.relay now hsafe
      rw [hd] at hr2
      cases hr2
      have hal : ∀ addr, r'.AddrAllowed addr = s.relay.AddrAllowed addr :=
        fun addr => AddrAllowed_congr _ _ addr h6
      have hcap := hinv.hCap
      refine ⟨?_, by simp, rfl, rfl⟩
      constructor
      · simp only; rw [h5]; exact hinv.hMode
      · simp only; rw [h6]; exact hinv.hWhiteList
      · simp only; rw [h9]; exact hinv.hRelayer
      · simp only; rw [h8]; exact hinv.hServer
      · simp only; rw [h3]; rfl
      · simp only; rw [h4, List.filter_append, hinv.hCount]
        simp [List.filter, Event.isAccept]
      · simp only; rw [h2]; exact hcap
      · intro _
        simp only
        rw [h1, h2]
        have := hbusy.1
        have := hbusy.2
        split <;> simp <;> omega
      · intro hc; simp at hc
      · simp only
        rw [h7, hinv.hClient]
        simp only [hal, accept_mem_snoc es (.release now) rfl]
      · intro c0 hc; simp at hc

theorem step_inv (mode : RelayMode) (wl : Regexp) (es : List Event) (s s' : Endpoint)
    (e : Event) (hinv : Endpoint.Inv mode wl es s) (h : s.step e = some s') :
    Endpoint.Inv mode wl (es ++ [e]) s' := by
  cases e with
  | accept conn a b => exact (step_inv_accept mode wl es s s' conn a b hinv h).1
  | release now => exact (step_inv_release mode wl es s s' now hinv h).1
  | wake now ping finish => exact step_inv_inner mode wl es s s' _ rfl hinv h
  | relay call start finish req => exact step_inv_inner mode wl es s s' _ rfl hinv h
  | ping t => exact step_inv_inner mode wl es s s' _ rfl hinv h
  | dispatch req => exact step_inv_inner mode wl es s s' _ rfl hinv h

theorem run_inv (mode : RelayMode) (wl : Regexp) (es0 es : List Event) (s0 s : Endpoint)
    (hinv : Endpoint.Inv mode wl es0 s0) (h : s0.run es = some s) :
    Endpoint.Inv mode wl (es0 ++ es) s := by
  induction es using List.reverseRecOn generalizing s with
  | nil =>
    simp [Endpoint.run] at h
    subst h
    simpa using hinv
  | append_singleton es e ih =>
    rw [run_snoc] at h
    cases hr : s0.run es with
    | none => simp [hr] at h
    | some s1 =>
      simp only [hr, Option.bind_some] at h
      have := step_inv mode wl (es0 ++ es) s1 s e (ih s1 hr) h
      simpa [List.append_assoc] using this

theorem reachable_inv (host : String) (port : Int) (wl : Regexp) (mode : RelayMode)
    (conf : TLSConfig) (es : List Event) (s : Endpoint)
    (h : (Endpoint.start host port wl mode conf).run es = some s) :
    Endpoint.Inv mode wl es s := by
  simpa using run_inv mode wl [] es _ s (start_inv host port wl mode conf) h

end relay

namespace relay

theorem run_inner (during : List Event) (hin : ∀ e ∈ during, e.inner = true)
    (s1 s2 : Endpoint) (h : s1.run during = some s2) :
    s2.handling = s1.handling ∧ s2.relay.Mode = s1.relay.Mode ∧
      s2.relay.WhiteList = s1.relay.WhiteList ∧
      s2.relay.isConnected = s1.relay.isConnected ∧
      s2.relay.connectTimes = s1.relay.connectTimes ∧
      s2.relay.disconnectTimes = s1.relay.disconnectTimes ∧
      s2.relay.connectCnt = s1.relay.connectCnt ∧
      s2.relay.rpcClient = s1.relay.rpcClient ∧ s2.relay.rpcServer = s1.relay.rpcServer ∧
      s2.relay.relayer.isSome = s1.relay.relayer.isSome := by
  induction during generalizing s1 with
  | nil =>
    simp [Endpoint.run] at h
    subst h
    simp
  | cons e es ih =>
    simp only [Endpoint.run, List.foldlM_cons] at h
    cases hstep : s1.step e with
    | none => simp [hstep] at h
    | some sm =>
      simp only [hstep, Option.bind_eq_bind, Option.some_bind] at h
      have hfirst := step_inner s1 sm e (hin e (List.mem_cons_self _ _)) hstep
      have hrest := ih (fun e' he' => hin e' (List.mem_cons_of_mem _ he')) sm h
      obtain ⟨a1, a2, a3, a4, a5, a6, a7, a8, a9, a10⟩ := hfirst
      obtain ⟨b1, b2, b3, b4, b5, b6, b7, b8, b9, b10⟩ := hrest
      exact ⟨b1.trans a1, b2.trans a2, b3.trans a3, b4.trans a4, b5.trans a5, b6.trans a6,
        b7.trans a7, b8.trans a8, b9.trans a9, b10.trans a10⟩

/-- Evaluation of the code for claim C8, which the code does not meet: after any sequence
of connection cycles from a new Relay the connect list holds min(n, 1001) timestamps and
the disconnect list min(n, 1000), each a suffix of the timestamps recorded, so that
after 1001 cycles the connect list holds 1001 entries, one more than the cap of 1000. -/
theorem connectTimes_exceeds_cap (host : String) (port : Int) (wl : Regexp) (mode : RelayMode)
    (conf : TLSConfig) (ts : List (Int × Int × Int)) :
    (∃ r, (NewRelay host port wl mode conf).cycles ts = some r ∧
        r.connectTimes.length = min ts.length 1001 ∧
        r.disconnectTimes.length = min ts.length 1000 ∧
        r.connectTimes <:+ ts.map (fun t => t.2.1) ∧
        r.disconnectTimes <:+ ts.map (fun t => t.2.2)) ∧
      ((NewRelay "" 5000 (.plus .any) PassThrough {}).cycles
          (List.replicate 1001 (0, 0, 0))).map (fun r => r.connectTimes.length) = some 1001 := by
  have hgen : ∀ (h : String) (p : Int) (w : Regexp) (m : RelayMode) (c : TLSConfig)
      (l : List (Int × Int × Int)),
      ∃ r, (NewRelay h p w m c).cycles l = some r ∧
        r.connectTimes.length = min l.length 1001 ∧
        r.disconnectTimes.length = min l.length 1000 ∧
        r.connectTimes <:+ l.map (fun t => t.2.1) ∧
        r.disconnectTimes <:+ l.map (fun t => t.2.2) := by
    intro h p w m c l
    have := cycles_invariant l (NewRelay h p w m c) 0 [] [] (by simp [NewRelay])
      (by simp [NewRelay]) (by simp [NewRelay]) (by simp [NewRelay])
    simpa using this
  refine ⟨hgen host port wl mode conf ts, ?_⟩
  obtain ⟨r, hr, hlen, -⟩ := hgen "" 5000 (.plus .any) PassThrough {}
    (List.replicate 1001 (0, 0, 0))
  rw [hr]
  rw [List.length_replicate, Nat.min_self] at hlen
  show some r.connectTimes.length = some 1001
  rw [hlen]

end relay

namespace relay

/-- Counterexample to claim C9 as stated. A PassThrough Relay accepts the whitelisted sample
peer, a ping of the watcher fails and handleConn returns: rpcClient is still set although
isConnected is false. And while a PassThrough Relay with the whitelist 1.2.3.\d+ handles
the rejected peer 1.2.4.100, isConnected is true although rpcClient is nil. -/
theorem rpcClient_iff_connected_fails :
    ((Endpoint.start "" 5000 (.plus .any) PassThrough {}).run
        sampleEvents).map
        (fun s => (s.relay.rpcClient.isSome, s.relay.Mode == PassThrough, s.relay.isConnected))
        = some (true, true, false) ∧
      ((Compile "1.2.3.\\d+").bind (fun wl =>
        (Endpoint.start "" 5000 wl PassThrough {}).run
          [.accept { RemoteAddr := .tcp { IP := [1, 2, 4, 100], Port := 40000 } } 10 10])).map
        (fun s => (s.relay.rpcClient.isSome, s.relay.Mode == PassThrough, s.relay.isConnected))
        = some (false, true, true) := by
  constructor <;> decide

/-- Claim C9, amended. In every state a Relay reaches from NewRelay and Init, rpcClient is
non-nil exactly when the mode is PassThrough and a connection of a whitelisted peer has
been accepted at some point (so it implies PassThrough mode, and nothing clears it on
disconnect); and while handleConn handles the connection of a whitelisted peer in
PassThrough mode, rpcClient is the client of that connection and isConnected is true. -/
theorem rpcClient_invariant (host : String) (port : Int) (wl : Regexp) (mode : RelayMode)
    (conf : TLSConfig) (es : List Event) (s : Endpoint)
    (h : (Endpoint.start host port wl mode conf).run es = some s) :
    (s.relay.rpcClient ≠ none ↔
        s.relay.Mode = PassThrough ∧
          ∃ conn a b, Event.accept conn a b ∈ es ∧
            s.relay.AddrAllowed conn.RemoteAddr = true) ∧
      (s.relay.rpcClient ≠ none → s.relay.Mode = PassThrough) ∧
      (∀ conn, s.handling = some conn → s.relay.Mode = PassThrough →
        s.relay.AddrAllowed conn.RemoteAddr = true →
        s.relay.rpcClient = some (NewClient conn) ∧ s.relay.isConnected = true) ∧
      s.relay.isConnected = s.handling.isSome := by
  have inv := reachable_inv host port wl mode conf es s h
  have hm := inv.hMode
  refine ⟨?_, ?_, ?_, inv.hConnected⟩
  · rw [hm]; exact inv.hClient
  · intro hne
    rw [hm]
    exact (inv.hClient.mp hne).1
  · intro conn hc hpt ha
    rw [hm] at hpt
    refine ⟨inv.hCurrent conn hc hpt ha, ?_⟩
    rw [inv.hConnected, hc]
    rfl

theorem sampleEnd_run :
    (Endpoint.start "" 5000 (.plus .any) PassThrough {}).run sampleEvents = some sampleEnd := by
  rfl

/-- Witness of C9 amended: after the sample cycle the client of the sample peer is still
attached, in PassThrough mode, with isConnected false. -/
theorem rpcClient_invariant_witness :
    (sampleEnd.relay.rpcClient ≠ none ↔
        sampleEnd.relay.Mode = PassThrough ∧
          ∃ conn a b, Event.accept conn a b ∈ sampleEvents ∧
            sampleEnd.relay.AddrAllowed conn.RemoteAddr = true) ∧
      sampleEnd.relay.isConnected = sampleEnd.handling.isSome :=
  have h := rpcClient_invariant "" 5000 (.plus .any) PassThrough {} sampleEvents sampleEnd
    sampleEnd_run
  ⟨h.1, h.2.2.2⟩

end relay

namespace relay

theorem handleConn_eq (r r1 : Relay) (conn : Conn) (a b now : Int)
    (h : r.handleConnOpen conn a b = some r1) :
    r.handleConn conn a b now = r1.disconnected now := by
  simp [Relay.handleConn, h]

theorem disconnected_safe (r r3 : Relay) (now : Int) (h : r.disconnected now = some r3) :
    r.connectTimes.length > 1000 → r.disconnectTimes ≠ [] := by
  intro hlen hnil
  simp [Relay.disconnected, hlen, hnil] at h

theorem disconnected_congr (r1 r2 r3 : Relay) (now : Int)
    (hc : r2.connectTimes = r1.connectTimes) (hd : r2.disconnectTimes = r1.disconnectTimes)
    (h : r1.disconnected now = some r3) :
    ∃ r4, r2.disconnected now = some r4 ∧ r4.connectTimes = r3.connectTimes ∧
      r4.disconnectTimes = r3.disconnectTimes ∧ r4.isConnected = r3.isConnected ∧
      r4.connectCnt = r2.connectCnt ∧ r3.connectCnt = r1.connectCnt ∧
      r4.Mode = r2.Mode ∧ r4.rpcServer = r2.rpcServer := by
  have hs1 := disconnected_safe r1 r3 now h
  obtain ⟨x, hx, x1, x2, x3, x4, -⟩ := disconnected_some r1 now hs1
  rw [h] at hx
  cases hx
  obtain ⟨r4, hr4, y1, y2, y3, y4, y5, y6, y7, y8, y9⟩ :=
    disconnected_some r2 now (by rw [hc, hd]; exact hs1)
  refine ⟨r4, hr4, ?_, ?_, ?_, y4, x4, y5, y8⟩
  · rw [y2, x2, hc]
  · rw [y1, x1, hc, hd]
  · rw [y3, x3]

/-- Claim C10. For a Relay in PassThrough or Handler mode reached from NewRelay and Init,
and a connection handed to handleConn while no other is handled: handleConn starts, and
whatever the other goroutines do meanwhile isConnected stays true and the connection
stays the one handled; handleConn returns, and then connectCnt is one more than before,
each of the two lists is the old one, without its oldest entry at most, followed by the new
timestamp, and isConnected is false, as the function handleConn itself computes; a later
connection is handled again and sets isConnected to true. -/
theorem handleConn_bookkeeping (host : String) (port : Int) (wl : Regexp) (mode : RelayMode)
    (conf : TLSConfig) (es during : List Event) (s : Endpoint) (conn : Conn) (a b now : Int)
    (hmode : mode = PassThrough ∨ mode = Handler)
    (hs : (Endpoint.start host port wl mode conf).run es = some s)
    (hidle : s.handling = none) (hin : ∀ e ∈ during, e.inner = true) :
    ∃ s1 r3, s.step (.accept conn a b) = some s1 ∧ s1.relay.isConnected = true ∧
      s.relay.handleConn conn a b now = some r3 ∧
      r3.connectCnt = s.relay.connectCnt + 1 ∧ r3.isConnected = false ∧
      (∃ kept, kept <:+ s.relay.connectTimes ∧ s.relay.connectTimes.length ≤ kept.length + 1 ∧
        r3.connectTimes = kept ++ [b]) ∧
      (∃ kept, kept <:+ s.relay.disconnectTimes ∧
        s.relay.disconnectTimes.length ≤ kept.length + 1 ∧
        r3.disconnectTimes = kept ++ [now]) ∧
      (∀ pre post s2, during = pre ++ post → s1.run pre = some s2 →
        s2.relay.isConnected = true ∧ s2.handling = some conn) ∧
      (∀ s2, s1.run during = some s2 →
        ∃ s3, s2.step (.release now) = some s3 ∧ s3.handling = none ∧
          s3.relay.connectCnt = r3.connectCnt ∧ s3.relay.isConnected = false ∧
          s3.relay.connectTimes = r3.connectTimes ∧
          s3.relay.disconnectTimes = r3.disconnectTimes ∧
          ∀ conn2 a2 b2, ∃ s4, s3.step (.accept conn2 a2 b2) = some s4 ∧
            s4.relay.isConnected = true ∧ s4.handling = some conn2) := by
  have inv := reachable_inv host port wl mode conf es s hs
  have hopenable : ∀ r : Relay, r.Mode = mode → r.rpcServer.isSome = decide (mode = Handler) →
      r.Mode = PassThrough ∨ r.rpcServer.isSome = true := by
    intro r hm hsrv
    rcases hmode with h | h
    · exact Or.inl (hm.trans h)
    · right; rw [hsrv]; simp [h]
  obtain ⟨r1, ho⟩ := handleConnOpen_isSome s.relay conn a b
    (hopenable s.relay inv.hMode inv.hServer)
  have hstep : s.step (.accept conn a b) = some { relay := r1, handling := some conn } := by
    simp [Endpoint.step, hidle, ho]
  obtain ⟨inv1, -, -, -⟩ := step_inv_accept mode wl es s _ conn a b inv hstep
  obtain ⟨o1, o2, o3, o4, o5, o6, o7, o8, o9⟩ := handleConnOpen_some _ _ _ _ _ ho
  have hct := connected_connectTimes s.relay a b
  have hbusy1 := inv1.hBusy (by simp)
  have hsafe1 : r1.connectTimes.length > 1000 → r1.disconnectTimes ≠ [] := by
    intro hlen hnil
    have := hbusy1.2
    simp only at this hlen
    rw [hnil] at this
    simp at this
    omega
  obtain ⟨r3, hr3, d1, d2, d3, d4, d5, d6, d7, d8, d9⟩ := disconnected_some r1 now hsafe1
  refine ⟨_, r3, hstep, o3, ?_, ?_, d3, ?_, ?_, ?_, ?_⟩
  · rw [handleConn_eq _ _ _ _ _ _ ho]; exact hr3
  · rw [d4, o6]
  · rw [d2, o4, hct]
    split
    · refine ⟨_, List.drop_suffix 1 _, ?_, rfl⟩
      simp; omega
    · exact ⟨_, List.suffix_refl _, by omega, rfl⟩
  · rw [d1, o5]
    split
    · refine ⟨_, List.drop_suffix 1 _, ?_, rfl⟩
      simp; omega
    · exact ⟨_, List.suffix_refl _, by omega, rfl⟩
  · intro pre post s2 hsplit hrun
    have hpre : ∀ e ∈ pre, e.inner = true := fun e he =>
      hin e (hsplit ▸ List.mem_append_left _ he)
    obtain ⟨p1, -, -, p4, -⟩ := run_inner pre hpre _ s2 hrun
    exact ⟨p4.trans o3, p1⟩
  · intro s2 hrun
    obtain ⟨p1, p2, p3, p4, p5, p6, p7, p8, p9, p10⟩ := run_inner during hin _ s2 hrun
    simp only at p1 p2 p3 p4 p5 p6 p7 p8 p9 p10
    obtain ⟨r4, hr4, e1, e2, e3, e4, e5, e6, e7⟩ := disconnected_congr r1 s2.relay r3 now p5 p6 hr3
    have hrel : s2.step (.release now) = some { relay := r4, handling := none } := by
      simp [Endpoint.step, p1, hr4]
    refine ⟨_, hrel, rfl, ?_, ?_, e1, e2, ?_⟩
    · simp only; rw [e4, p7, e5]
    · simp only; rw [e3, d3]
    · intro conn2 a2 b2
      have hm4 : r4.Mode = mode := by rw [e6, p2, o1]; exact inv.hMode
      have hs4 : r4.rpcServer.isSome = decide (mode = Handler) := by
        rw [e7, p9, o7]; exact inv.hServer
      obtain ⟨r5, ho5⟩ := handleConnOpen_isSome r4 conn2 a2 b2 (hopenable r4 hm4 hs4)
      refine ⟨{ relay := r5, handling := some conn2 }, ?_, ?_, rfl⟩
      · simp [Endpoint.step, ho5]
      · exact (handleConnOpen_some _ _ _ _ _ ho5).2.2.1

/-- Witness of C10: the sample endpoint, which has been through one cycle, handles the
sample peer again while two pings succeed; handleConn returns with the count raised by
one and isConnected false. -/
theorem handleConn_bookkeeping_witness :
    (sampleEnd.relay.handleConn samplePeer 20 21 30).map
        (fun r => (r.connectCnt, r.isConnected)) = some (sampleEnd.relay.connectCnt + 1, false) :=
  have h := handleConn_bookkeeping "" 5000 (.plus .any) PassThrough {} sampleEvents
    [.wake 22 (none, some "pong") 23, .wake 24 (none, some "pong") 25] sampleEnd samplePeer
    20 21 30 (Or.inl rfl) sampleEnd_run (by rfl) (by decide)
  match h with
  | ⟨_, r3, _, _, h3, h4, h5, _⟩ => by rw [h3]; simp [h4, h5]

end relay

namespace relay

/-! ## Status, the surrogate request, Ping and Close -/

/-- Claim C13. Status().Health is Red exactly when Mode is not OFF and isConnected is
false, and Green in every other state; Connected is isConnected and ConnectCount is
connectCnt. -/
theorem Status_health (r : Relay) :
    (r.Status.Health = .Red ↔ r.Mode ≠ OFF ∧ r.isConnected = false) ∧
      (r.Status.Health = .Green ↔ ¬ (r.Mode ≠ OFF ∧ r.isConnected = false)) ∧
      r.Status.Connected = r.isConnected ∧ r.Status.ConnectCount = r.connectCnt := by
  have hh : r.Status.Health = if (!r.isConnected) = true ∧ r.Mode ≠ OFF then .Red else .Green := by
    by_cases hp : r.Mode = PassThrough <;> simp [Relay.Status, hp]
  have hconn : r.Status.Connected = r.isConnected := by
    by_cases hp : r.Mode = PassThrough <;> simp [Relay.Status, hp]
  have hcnt : r.Status.ConnectCount = r.connectCnt := by
    by_cases hp : r.Mode = PassThrough <;> simp [Relay.Status, hp]
  refine ⟨?_, ?_, hconn, hcnt⟩
  · rw [hh]
    by_cases hm : r.Mode = OFF <;> cases hc : r.isConnected <;> simp [hm]
  · rw [hh]
    by_cases hm : r.Mode = OFF <;> cases hc : r.isConnected <;> simp [hm]

theorem drain_NewReader (size : Nat) (fuel : Nat) (data : Bytes) (h : data.length < fuel) :
    Reader.drain (size + 1) fuel (NewReader data) = (data, some EOF) := by
  induction fuel generalizing data with
  | zero => omega
  | succ fuel ih =>
    cases data with
    | nil => simp [Reader.drain, Reader.Read, NewReader]
    | cons x xs =>
      have hrest : (List.drop (min (size + 1) (xs.length + 1)) (x :: xs)).length < fuel := by
        simp only [List.length_drop, List.length_cons] at h ⊢
        omega
      have := ih _ hrest
      simp only [NewReader] at this
      simp only [Reader.drain, Reader.Read, NewReader, copy, make, List.length_replicate,
        List.length_cons, this]
      simp
      rw [this]
      exact ⟨List.take_append_drop _ _, rfl⟩

/-- Claim C15. The request rebuilt from CreateFauxRequest(r, body) has the method, URL,
protocol, headers, content length, transfer encoding, host and form values of r; its body
is a reader at the start of body that ends with io.EOF: ReadAll gives body without
error, and reading it in chunks of any positive size gives body and then io.EOF. Each
call of Request() returns such a reader anew, however far an earlier one has been read,
and the FauxRequest is recovered unchanged from the request. -/
theorem FauxRequest_round_trip (r : Request) (body p : Bytes) (size extra : Nat)
    (f : FauxRequest) :
    (CreateFauxRequest r body).Request.Method = r.Method ∧
      (CreateFauxRequest r body).Request.URL = r.URL ∧
      (CreateFauxRequest r body).Request.Proto = r.Proto ∧
      (CreateFauxRequest r body).Request.ProtoMajor = r.ProtoMajor ∧
      (CreateFauxRequest r body).Request.ProtoMinor = r.ProtoMinor ∧
      (CreateFauxRequest r body).Request.Header = r.Header ∧
      (CreateFauxRequest r body).Request.ContentLength = r.ContentLength ∧
      (CreateFauxRequest r body).Request.TransferEncoding = r.TransferEncoding ∧
      (CreateFauxRequest r body).Request.Host = r.Host ∧
      (CreateFauxRequest r body).Request.Form = r.Form ∧
      ReadAll (CreateFauxRequest r body).Request.Body = (body, none) ∧
      Reader.drain (size + 1) (body.length + 1 + extra) (CreateFauxRequest r body).Request.Body
        = (body, some EOF) ∧
      (f.Request.Body.Read p).2.2.2.data = f.Body.drop (min p.length f.Body.length) ∧
      f.Request.Body = NewReader f.Body ∧
      ReadAll f.Request.Body = (f.Body, none) ∧
      CreateFauxRequest f.Request f.Body = f := by
  refine ⟨rfl, rfl, rfl, rfl, rfl, rfl, rfl, rfl, rfl, rfl, rfl, ?_, ?_, rfl, rfl, rfl⟩
  · exact drain_NewReader size _ body (by omega)
  · simp only [FauxRequest.Request, Reader.Read, NewReader, copy]
    split
    · rename_i h; simp [h]
    · rfl

/-- Claim C16. Ping(t) returns no error and the reply pong, sets lastPing to t whatever it
was, and leaves the router and the hook as they were; a Relay whose relayer has served
the ping then reports t as its last ping time. -/
theorem Ping_stamps (rl : Relayer) (t : Int) (r : Relay) :
    (rl.Ping t).2 = ("pong", none) ∧ (rl.Ping t).1.lastPing = t ∧
      (rl.Ping t).1.router = rl.router ∧ (rl.Ping t).1.relayhook = rl.relayhook ∧
      ({ r with relayer := some (rl.Ping t).1 } : Relay).LastPingTime = some t :=
  ⟨rfl, rfl, rfl, rfl, rfl⟩

/-- Claim C17. Close on a Relay without rpc client and with doneCh open returns normally,
closes no client, closes doneCh and changes no other field; doneCh is then closed, and
a second Close would panic on it. -/
theorem Close_never_connected (r : Relay) (hnil : r.rpcClient = none)
    (hopen : r.doneCh = false) :
    r.Close = some ({ r with doneCh := true }, []) ∧
      ({ r with doneCh := true } : Relay).Close = none := by
  simp [Relay.Close, hnil, hopen]

/-- Witness of C17: a PassThrough Relay after NewRelay and Init. -/
theorem Close_never_connected_witness :
    ((NewRelay "" 5000 (.plus .any) PassThrough {}).Init.1.Close).map
        (fun res => (res.1.doneCh, res.2)) = some (true, []) :=
  have h := Close_never_connected (NewRelay "" 5000 (.plus .any) PassThrough {}).Init.1
    (by rfl) (by rfl)
  by rw [h.1]; rfl

end relay

namespace relay

/-! ## Liveness on the Handler side -/

theorem handler_open (host : String) (port : Int) (wl : Regexp) (conf : TLSConfig)
    (conn : Conn) (a b t : Int) :
    ∃ s1, (Endpoint.start host port wl Handler conf).run [.accept conn a b, .ping t] = some s1 ∧
      s1.handling = some conn ∧ s1.relay.isConnected = true ∧ s1.relay.Mode = Handler ∧
      s1.relay.LastPingTime = some t ∧ s1.relay.checkInterval = Second * 2 ∧
      s1.relay.doneCh = false :=
  ⟨_, rfl, rfl, rfl, rfl, rfl, rfl, rfl⟩

/-- Evaluation of the code for claim C11, which the code does not meet. A Handler-mode
Relay that has accepted a connection and served a Ping stamped t is connected, and its
handleConn is blocked in ServeConn: the watcher never wakes up for it, although the
watcher's own test would report the tunnel dead as soon as more than 2 * checkInterval
have passed since t; and whatever else happens short of ServeConn returning, at whatever
times, the Relay stays connected on the same connection. -/
theorem handler_ignores_missing_pings (host : String) (port : Int) (wl : Regexp)
    (conf : TLSConfig) (conn : Conn) (a b t now finish : Int)
    (ping : Option Error × Option String) (during : List Event) :
    ∃ s1, (Endpoint.start host port wl Handler conf).run [.accept conn a b, .ping t] = some s1 ∧
      s1.handling = some conn ∧ s1.relay.isConnected = true ∧
      s1.relay.LastPingTime = some t ∧
      s1.step (.wake now ping finish) = none ∧
      (s1.relay.watcherWake now ping finish).map (fun res => res.2) =
        some (decide (now - t > Second * 2 * 2)) ∧
      (s1.run (during.filter Event.inner)).all
        (fun s2 => s2.relay.isConnected && s2.handling == some conn) = true := by
  obtain ⟨s1, hrun, hh, hc, hm, hl, hi, hd⟩ := handler_open host port wl conf conn a b t
  refine ⟨s1, hrun, hh, hc, hl, ?_, ?_, ?_⟩
  · have hne : ¬ s1.relay.Mode = PassThrough := by rw [hm]; decide
    simp [Endpoint.step, hh, hne]
  · simp [Relay.watcherWake, hd, hm, hl, hi]
  · cases hr : s1.run (during.filter Event.inner) with
    | none => rfl
    | some s2 =>
      have hin : ∀ e ∈ during.filter Event.inner, e.inner = true := fun e he =>
        (List.mem_filter.mp he).2
      obtain ⟨p1, -, -, p4, -⟩ := run_inner _ hin s1 s2 hr
      simp [Option.all, p1, p4, hh, hc]

end relay

namespace util

/-! ## ParseArgs -/

theorem HasPrefix_dash (k : String) : HasPrefix ("-" ++ k) "-" = true := by
  simp [HasPrefix, String.toList]

theorem dropWhile_dash (l : List Char) (h : l.head? ≠ some '-') :
    l.dropWhile (fun c => decide (c ∈ "-".toList)) = l := by
  cases l with
  | nil => rfl
  | cons x xs =>
    have hx : x ≠ '-' := by simpa using h
    simp [List.dropWhile, String.toList, hx]

theorem Trim_dash (k : String) (h1 : k.toList.head? ≠ some '-')
    (h2 : k.toList.getLast? ≠ some '-') : Trim ("-" ++ k) "-" = k := by
  have hfirst : ("-" ++ k).toList.dropWhile (fun c => decide (c ∈ "-".toList)) = k.toList := by
    have : ("-" ++ k).toList = '-' :: k.toList := by simp [String.toList]
    rw [this, List.dropWhile_cons_of_pos (by decide)]
    exact dropWhile_dash k.toList h1
  have hlast : k.toList.reverse.dropWhile (fun c => decide (c ∈ "-".toList)) = k.toList.reverse :=
    dropWhile_dash _ (by rw [List.head?_reverse]; exact h2)
  unfold Trim
  rw [hfirst, hlast, List.reverse_reverse]
  rfl

theorem TrimPrefix_of_not (v p : String) (h : HasPrefix v p = false) : TrimPrefix v p = v := by
  simp [TrimPrefix, h]

theorem Pairs.set_new (m : Pairs) (k : String) (v : Value) (h : ∀ e ∈ m, e.1 ≠ k) :
    m.set k v = m ++ [(k, v)] := by
  have : m.any (fun e => e.1 == k) = false := by
    rw [List.any_eq_false]
    intro e he
    simpa using h e he
  simp [Pairs.set, this]

theorem Group.args_head (g : Group) :
    ∃ rest, g.args = ("-" ++ g.key) :: rest := by
  cases g <;> exact ⟨_, rfl⟩

theorem loop_groups (groups : List Group) (acc : Pairs) (hok : ∀ g ∈ groups, g.ok)
    (hkeys : (groups.map Group.key).Nodup)
    (hacc : ∀ g ∈ groups, ∀ e ∈ acc, e.1 ≠ g.key) :
    ParseArgs.loop (groups.flatMap Group.args) "" acc = acc ++ groups.map Group.entry := by
  induction groups generalizing acc with
  | nil => simp [ParseArgs.loop]
  | cons g gs ih =>
    have hokgs : ∀ g' ∈ gs, g'.ok := fun g' hg' => hok g' (List.mem_cons_of_mem _ hg')
    have hnodup : g.key ∉ gs.map Group.key ∧ (gs.map Group.key).Nodup :=
      List.nodup_cons.mp (by rw [List.map_cons] at hkeys; exact hkeys)
    have hnew : ∀ e ∈ acc, e.1 ≠ g.key := hacc g (List.mem_cons_self _ _)
    have hacc' : ∀ v, ∀ g' ∈ gs, ∀ e ∈ acc ++ [(g.key, v)], e.1 ≠ g'.key := by
      intro v g' hg' e he
      rcases List.mem_append.mp he with he | he
      · exact hacc g' (List.mem_cons_of_mem _ hg') e he
      · simp only [List.mem_singleton] at he
        subst he
        intro heq
        have hkey : g.key = g'.key := heq
        exact hnodup.1 (hkey ▸ List.mem_map_of_mem _ hg')
    have hih := fun v => ih (acc ++ [(g.key, v)]) hokgs hnodup.2 (hacc' v)
    have hg := hok g (List.mem_cons_self _ _)
    cases g with
    | flag k =>
      obtain ⟨hk0, hk1, hk2⟩ := hg
      simp only [Group.key] at hnew hih
      cases gs with
      | nil =>
        simp [Group.args, ParseArgs.loop, HasPrefix_dash, Trim_dash k hk1 hk2, hk0,
          Pairs.set_new acc k _ hnew, Group.entry]
      | cons g2 gs2 =>
        obtain ⟨rest, hrest⟩ := Group.args_head g2
        have hflat : (Group.flag k :: g2 :: gs2).flatMap Group.args =
            ("-" ++ k) :: ("-" ++ g2.key) :: (rest ++ gs2.flatMap Group.args) := by
          rw [List.flatMap_cons, List.flatMap_cons, hrest]
          rfl
        have hflat2 : (g2 :: gs2).flatMap Group.args =
            ("-" ++ g2.key) :: (rest ++ gs2.flatMap Group.args) := by
          rw [List.flatMap_cons, hrest]
          rfl
        rw [hflat, ParseArgs.loop]
        simp only [HasPrefix_dash, if_true, Trim_dash k hk1 hk2, Pairs.set_new acc k _ hnew]
        rw [← hflat2, hih]
        simp [Group.entry]
    | pair k v =>
      obtain ⟨⟨hk0, hk1, hk2⟩, hv⟩ := hg
      simp only [Group.key] at hnew hih
      have hflat : (Group.pair k v :: gs).flatMap Group.args =
          ("-" ++ k) :: v :: gs.flatMap Group.args := by
        simp [List.flatMap_cons, Group.args]
      rw [hflat, ParseArgs.loop]
      simp only [HasPrefix_dash, if_true, Trim_dash k hk1 hk2, hv, TrimPrefix_of_not v "-" hv,
        Pairs.set_new acc k _ hnew]
      simp only [Bool.false_eq_true, if_false]
      rw [hih]
      simp [Group.entry]

/-- Claim C18. For a list of groups, each a lone flag or a flag with a value, whose keys are
non-empty, free of dashes at both ends and pairwise distinct, and whose values do not
start with a dash, ParseArgs applied to the arguments of the groups returns the map with
exactly the entries of the groups, one per group: true for a lone flag, the value for a
pair. The arguments -one two -three give one: two and three: true. -/
theorem ParseArgs_flag_groups (groups : List Group) (hok : ∀ g ∈ groups, g.ok)
    (hkeys : (groups.map Group.key).Nodup) :
    ParseArgs (groups.flatMap Group.args) = groups.map Group.entry ∧
      (ParseArgs (groups.flatMap Group.args)).length = groups.length ∧
      ((ParseArgs (groups.flatMap Group.args)).map (fun e => e.1)).Nodup ∧
      ParseArgs ["-one", "two", "-three"] = [("one", .str "two"), ("three", .bool true)] := by
  have h : ParseArgs (groups.flatMap Group.args) = groups.map Group.entry := by
    have := loop_groups groups [] hok hkeys (by simp)
    simpa [ParseArgs] using this
  have hk : (groups.map Group.entry).map (fun e => e.1) = groups.map Group.key := by
    rw [List.map_map]
    apply List.map_congr_left
    intro g _
    cases g <;> rfl
  refine ⟨h, by rw [h]; simp, by rw [h, hk]; exact hkeys, by decide⟩

/-- Witness of C18: the groups -one two and -three. -/
theorem ParseArgs_flag_groups_witness :
    ParseArgs ([Group.pair "one" "two", Group.flag "three"].flatMap Group.args) =
      [("one", .str "two"), ("three", .bool true)] :=
  (ParseArgs_flag_groups [Group.pair "one" "two", Group.flag "three"]
    (by
      intro g hg
      simp only [List.mem_cons, List.mem_singleton, List.not_mem_nil, or_false] at hg
      rcases hg with rfl | rfl <;> simp [Group.ok, HasPrefix]
      decide)
    (by decide)).1

end util

namespace util

theorem HasPrefix_letter (c : Char) (s : String) (h : c ≠ '-') :
    HasPrefix (String.mk (c :: s.toList)) "-" = false := by
  simp [HasPrefix, String.toList, List.isPrefixOf, h]
  exact fun heq => h heq.symm

/-- Evaluation of the code for claim C19, which the code does not meet: for the two
arguments one two, neither starting with a dash, ParseArgs returns a map with the empty
key bound to two; so it does for any two arguments that start with a character other
than the dash, while a single such argument and the empty list give the empty map. -/
theorem ParseArgs_no_flags_not_empty (c d : Char) (s t : String) :
    ParseArgs ["one", "two"] = [("", .str "two")] ∧
      ParseArgs ["mount", "123", "vol", "7"] = [("", .str "7")] ∧
      ParseArgs ["one"] = [] ∧ ParseArgs [] = [] ∧
      (if c = '-' ∨ d = '-' then True else
        ParseArgs [String.mk (c :: s.toList), String.mk (d :: t.toList)] =
          [("", .str (String.mk (d :: t.toList)))]) := by
  refine ⟨by decide, by decide, by decide, by decide, ?_⟩
  split
  · trivial
  · rename_i h
    have hc : c ≠ '-' := fun hc => h (Or.inl hc)
    have hd : d ≠ '-' := fun hd => h (Or.inr hd)
    have h1 := HasPrefix_letter c s hc
    have h2 := HasPrefix_letter d t hd
    simp only [ParseArgs, ParseArgs.loop, h1, h2, TrimPrefix]
    simp [Pairs.set]

/-! ## FindTemplate -/

theorem FindTemplate.loop_found (templates : Templates) (args : List String) (tpl : Template)
    (i n : Nat) (hin : i ≤ n) (hfound : templates.Lookup (tplname args i) = some tpl)
    (hlater : ∀ j, i < j → j ≤ n → templates.Lookup (tplname args j) = none) :
    FindTemplate.loop templates args n = (some tpl, args.drop i) := by
  induction n with
  | zero =>
    have : i = 0 := by omega
    subst this
    simp [FindTemplate.loop, hfound]
  | succ n ih =>
    rcases Nat.lt_or_ge i (n + 1) with hlt | hge
    · have hnone := hlater (n + 1) hlt (le_refl _)
      simp only [FindTemplate.loop, hnone]
      exact ih (by omega) (fun j hj hjn => hlater j hj (by omega))
    · have : i = n + 1 := by omega
      subst this
      simp [FindTemplate.loop, hfound]

theorem FindTemplate.loop_none (templates : Templates) (args : List String) (n : Nat)
    (hnone : ∀ j, j ≤ n → templates.Lookup (tplname args j) = none) :
    FindTemplate.loop templates args n = (none, args) := by
  induction n with
  | zero => simp [FindTemplate.loop, hnone 0 (le_refl _)]
  | succ n ih =>
    simp only [FindTemplate.loop, hnone (n + 1) (le_refl _)]
    exact ih (fun j hj => hnone j (by omega))

theorem Lookup_name (templates : Templates) (name : String) (tpl : Template)
    (h : templates.Lookup name = some tpl) : tpl.Name = name ∧ tpl ∈ templates := by
  unfold Templates.Lookup at h
  have hp := List.find?_some h
  exact ⟨by simpa using hp, List.mem_of_find?_eq_some h⟩

/-- Claim C20. When the template set has a template named join(args[0:i], _) + .tpl for
some i in 0..len(args) and none for any larger index, FindTemplate returns that template
and the leftover arguments args[i:], the consumed arguments followed by the leftover
being args; when the set has no such template for any i in 0..len(args), it returns no
template and args. -/
theorem FindTemplate_longest (templates : Templates) (args : List String) (tpl : Template)
    (i : Nat) :
    (i ≤ args.length → templates.Lookup (tplname args i) = some tpl →
        (∀ j, i < j → j ≤ args.length → templates.Lookup (tplname args j) = none) →
        FindTemplate templates args = (some tpl, args.drop i) ∧
          tpl.Name = Join (args.take i) "_" ++ ".tpl" ∧ tpl ∈ templates ∧
          args.take i ++ (FindTemplate templates args).2 = args) ∧
      ((∀ j, j ≤ args.length → templates.Lookup (tplname args j) = none) →
        FindTemplate templates args = (none, args)) := by
  constructor
  · intro hi hfound hlater
    have h := FindTemplate.loop_found templates args tpl i args.length hi hfound hlater
    have hn := Lookup_name templates _ tpl hfound
    refine ⟨h, hn.1, hn.2, ?_⟩
    unfold FindTemplate
    rw [h]
    exact List.take_append_drop i args
  · intro hnone
    exact FindTemplate.loop_none templates args args.length hnone

/-- Witness of C20: with the templates describe_mounts.tpl and describe.tpl, the input
describe mounts mount 123 finds describe_mounts.tpl and leaves mount 123; with the
template other.tpl alone nothing is found. -/
theorem FindTemplate_longest_witness :
    FindTemplate [{ Name := "describe.tpl" }, { Name := "describe_mounts.tpl" }]
        ["describe", "mounts", "mount", "123"] =
        (some { Name := "describe_mounts.tpl" }, ["mount", "123"]) ∧
      FindTemplate [{ Name := "other.tpl" }] ["describe", "mounts"] =
        (none, ["describe", "mounts"]) :=
  ⟨((FindTemplate_longest [{ Name := "describe.tpl" }, { Name := "describe_mounts.tpl" }]
      ["describe", "mounts", "mount", "123"] { Name := "describe_mounts.tpl" } 2).1
      (by decide) (by decide)
      (by
        intro j h1 h2
        have h3 : j ≤ 4 := h2
        interval_cases j <;> decide)).1,
   (FindTemplate_longest [{ Name := "other.tpl" }] ["describe", "mounts"]
      { Name := "other.tpl" } 0).2
      (by
        intro j h2
        have h3 : j ≤ 2 := h2
        interval_cases j <;> decide)⟩

end util

namespace app

open relay

/-! ## InitRelay and the status updater -/

theorem Init_no_error (r : Relay) : r.Init.2 = none := by
  by_cases h : r.Mode = Handler <;> simp [Relay.Init, h, NewServer, RpcServer.Register]

theorem Init_Mode (r : Relay) : r.Init.1.Mode = r.Mode := by
  by_cases h : r.Mode = Handler <;> simp [Relay.Init, h]

theorem relayMode_not_fatal (c : ChatOps) (env : Env) (msg : String) :
    c.relayMode env ≠ .fatal msg := by
  unfold ChatOps.relayMode
  intro h
  split at h
  · cases h
  · split at h
    · split at h <;> cases h
    · cases h

theorem relayMode_mode (c : ChatOps) (env : Env) (mode : RelayMode) (conf : TLSConfig)
    (h : c.relayMode env = .done (mode, conf)) :
    mode = (if c.RelayHandler then Handler else if c.RelayPassthrough then PassThrough else OFF) ∧
      conf.InsecureSkipVerify = c.RelayInsecure := by
  unfold ChatOps.relayMode at h
  cases hH : c.RelayHandler <;> cases hP : c.RelayPassthrough <;>
    simp only [hH, hP, if_true, if_false, Bool.false_eq_true] at h ⊢
  · cases h
    exact ⟨rfl, rfl⟩
  · split at h
    · cases h
      exact ⟨rfl, rfl⟩
    · cases h
  · cases h
    exact ⟨rfl, rfl⟩
  · cases h
    exact ⟨rfl, rfl⟩

/-- Counterexample to claim C12 as stated. With the handler flag alone and the whitelist
pattern ( which is not a valid expression, InitRelay neither exits through log.Fatal
nor returns a Relay in Handler mode: regexp.MustCompile panics in NewRelay. With the
passthrough flag alone, relative certificate paths and a working directory that cannot
be read, it panics in GetAbsoluteFilePath. -/
theorem InitRelay_panics : handlerBadWhitelist.RelayHandler = true ∧
    handlerBadWhitelist.RelayPassthrough = false ∧
    sampleEnv.compile handlerBadWhitelist.RelayWhiteList = none ∧
    handlerBadWhitelist.InitRelay sampleEnv = .panic "regexp: Compile" ∧
    passthroughOnly.RelayHandler = false ∧ passthroughOnly.RelayPassthrough = true ∧
    passthroughOnly.InitRelay noWorkdirEnv = .panic "getwd" :=
  ⟨rfl, rfl, by decide, rfl, rfl, rfl, rfl⟩

/-- Claim C12, amended. InitRelay ends in the fatal exit exactly when both RelayHandler
and RelayPassthrough are set; it then exits with the message that the modes are
mutually exclusive, no Relay having been constructed and with no listen or dial asked
for. When InitRelay returns, the Relay it has constructed is in Handler mode if
RelayHandler is set, in PassThrough mode if RelayPassthrough is set, and OFF if neither
is; and it does return when at most one flag is set, regexp.MustCompile yields the
compiled whitelist and the mode is decided, as it always is outside passthrough mode.
It panics exactly when at most one flag is set and either the certificate paths
cannot be made absolute or the whitelist is not a valid expression. -/
theorem InitRelay_mode_exclusive (c : ChatOps) (env : Env) :
    ((∃ msg, c.InitRelay env = .fatal msg) ↔
        c.RelayHandler = true ∧ c.RelayPassthrough = true) ∧
      (c.RelayHandler = true ∧ c.RelayPassthrough = true →
        c.InitRelay env =
          .fatal "relay handler and passthrough modes are mutually exclusive." ∧
        c.runRelay env =
          (.fatal "relay handler and passthrough modes are mutually exclusive.", [])) ∧
      (∀ c1, c.InitRelay env = .done c1 →
        ∃ r, c1.relay = some r ∧
          r.Mode = (if c.RelayHandler then Handler
            else if c.RelayPassthrough then PassThrough else OFF)) ∧
      (∀ whitelist mode conf, ¬ (c.RelayHandler = true ∧ c.RelayPassthrough = true) →
        env.compile c.RelayWhiteList = some whitelist → c.relayMode env = .done (mode, conf) →
        c.InitRelay env = .done { c with
          relay := some (Relay.SetDebug
            (NewRelay c.RelayHost c.RelayPort whitelist mode conf).Init.1 c.Debug) }) ∧
      (c.RelayPassthrough = false → ∃ mode conf, c.relayMode env = .done (mode, conf)) ∧
      ((∃ msg, c.InitRelay env = .panic msg) ↔
        ¬ (c.RelayHandler = true ∧ c.RelayPassthrough = true) ∧
          ((∃ msg, c.relayMode env = .panic msg) ∨ env.compile c.RelayWhiteList = none)) := by
  have hboth : c.RelayHandler = true ∧ c.RelayPassthrough = true →
      c.InitRelay env = .fatal "relay handler and passthrough modes are mutually exclusive." := by
    intro h
    simp [ChatOps.InitRelay, h]
  have hdone : ∀ whitelist mode conf, ¬ (c.RelayHandler = true ∧ c.RelayPassthrough = true) →
      env.compile c.RelayWhiteList = some whitelist → c.relayMode env = .done (mode, conf) →
      c.InitRelay env = .done { c with
        relay := some (Relay.SetDebug
          (NewRelay c.RelayHost c.RelayPort whitelist mode conf).Init.1 c.Debug) } := by
    intro whitelist mode conf hnb hcomp hmode
    simp only [ChatOps.InitRelay, hnb, if_false, hmode, hcomp, Init_no_error]
  have hshape : ¬ (c.RelayHandler = true ∧ c.RelayPassthrough = true) →
      (∀ msg, c.InitRelay env ≠ .fatal msg) ∧
      (∀ c1, c.InitRelay env = .done c1 →
        ∃ r, c1.relay = some r ∧
          r.Mode = (if c.RelayHandler then Handler
            else if c.RelayPassthrough then PassThrough else OFF)) ∧
      ((∃ msg, c.InitRelay env = .panic msg) ↔
          ((∃ msg, c.relayMode env = .panic msg) ∨ env.compile c.RelayWhiteList = none)) := by
    intro hnb
    cases hm : c.relayMode env with
    | fatal m => exact absurd hm (relayMode_not_fatal c env m)
    | panic m =>
      have : c.InitRelay env = .panic m := by simp only [ChatOps.InitRelay, hnb, if_false, hm]
      rw [this]
      exact ⟨fun _ h => (by cases h), fun _ h => (by cases h),
        fun _ => Or.inl ⟨m, rfl⟩, fun _ => ⟨m, rfl⟩⟩
    | done mc =>
      obtain ⟨mode, conf⟩ := mc
      cases hcomp : env.compile c.RelayWhiteList with
      | none =>
        have : c.InitRelay env = .panic "regexp: Compile" := by
          simp only [ChatOps.InitRelay, hnb, if_false, hm, hcomp]
        rw [this]
        exact ⟨fun _ h => (by cases h), fun _ h => (by cases h),
          fun _ => Or.inr rfl, fun _ => ⟨_, rfl⟩⟩
      | some whitelist =>
        rw [hdone whitelist mode conf hnb hcomp hm]
        refine ⟨fun _ h => (by cases h), fun c1 h => ?_, ?_, ?_⟩
        · cases h
          refine ⟨_, rfl, ?_⟩
          show ((NewRelay c.RelayHost c.RelayPort whitelist mode conf).Init.1).Mode = _
          rw [Init_Mode]
          exact (relayMode_mode c env mode conf hm).1
        · rintro ⟨msg, h⟩
          cases h
        · rintro (⟨msg, h⟩ | h)
          · cases h
          · cases h
  refine ⟨⟨?_, fun h => ⟨_, hboth h⟩⟩, ?_, ?_, hdone, ?_, ?_⟩
  · rintro ⟨msg, hmsg⟩
    by_contra hnb
    exact (hshape hnb).1 msg hmsg
  · intro h
    refine ⟨hboth h, ?_⟩
    simp [ChatOps.runRelay, hboth h]
  · intro c1 h1
    by_cases hb : c.RelayHandler = true ∧ c.RelayPassthrough = true
    · rw [hboth hb] at h1
      cases h1
    · exact (hshape hb).2.1 c1 h1
  · intro hp
    unfold ChatOps.relayMode
    by_cases hh : c.RelayHandler = true
    · simp only [hh, if_true]
      exact ⟨_, _, rfl⟩
    · simp only [hh, hp, if_false, Bool.false_eq_true]
      exact ⟨_, _, rfl⟩
  · by_cases hb : c.RelayHandler = true ∧ c.RelayPassthrough = true
    · constructor
      · rintro ⟨msg, h⟩
        rw [hboth hb] at h
        cases h
      · rintro ⟨hnb, -⟩
        exact absurd hb hnb
    · constructor
      · intro h
        exact ⟨hb, (hshape hb).2.2.mp h⟩
      · rintro ⟨-, h⟩
        exact (hshape hb).2.2.mpr h

end app

namespace app

open relay

/-- Witness of C12: with both flags set the start-up ends in the fatal exit with no network
action; with the handler flag alone InitRelay returns a Relay in Handler mode. -/
theorem InitRelay_mode_exclusive_witness :
    bothModes.runRelay sampleEnv =
        (.fatal "relay handler and passthrough modes are mutually exclusive.", []) ∧
      ∃ c1 r, handlerOnly.InitRelay sampleEnv = .done c1 ∧ c1.relay = some r ∧
        r.Mode = Handler :=
  have h1 := InitRelay_mode_exclusive bothModes sampleEnv
  have h2 := InitRelay_mode_exclusive handlerOnly sampleEnv
  have hdone := h2.2.2.2.1 (.plus .any) Handler {} (by decide) (by decide) (by rfl)
  match h2.2.2.1 _ hdone with
  | ⟨r, hr, hm⟩ => ⟨(h1.2.1 ⟨rfl, rfl⟩).2, _, r, hdone, hr, hm⟩

theorem String_ne_OFF (m : RelayMode) : (RelayMode.String m : RelayMode) ≠ OFF := by
  unfold RelayMode.String
  split
  · decide
  · assumption

theorem Status_Mode (r : Relay) : r.Status.Mode = RelayMode.String r.Mode := by
  by_cases hp : r.Mode = PassThrough <;> simp [Relay.Status, hp]

/-- Evaluation of the code for claim C14, which the code does not meet: on a tick the
status updater always adds the relay stat, because it compares the label of the mode,
which is the text off for the mode OFF, with the empty mode; the stats slack and helpers
follow unless the mode is PassThrough or there is no Slack bot. With the relay OFF and a
Slack bot the stats are relay, slack, helpers, not slack and helpers alone. -/
theorem statusTick_stats (c : ChatOps) (r : Relay) :
    (({ c with relay := some r } : ChatOps).statusTick).map (fun c1 => c1.hr.stats) =
        some (c.hr.stats ++ "relay" ::
          (if r.Mode ≠ PassThrough ∧ c.sl ≠ none then ["slack", "helpers"] else [])) ∧
      ((withSlack OFF).statusTick).map (fun c1 => c1.hr.stats) =
        some ["relay", "slack", "helpers"] ∧
      ((withSlack Handler).statusTick).map (fun c1 => c1.hr.stats) =
        some ["relay", "slack", "helpers"] ∧
      ((withSlack PassThrough).statusTick).map (fun c1 => c1.hr.stats) = some ["relay"] := by
  refine ⟨?_, by decide, by decide, by decide⟩
  have hne : (r.Status.Mode : RelayMode) ≠ OFF := by
    rw [Status_Mode]
    exact String_ne_OFF r.Mode
  simp only [ChatOps.statusTick, hne, ne_eq, not_false_eq_true, if_true, Option.map_some']
  split <;> simp [Reporter.AddStat, Reporter.SetHealth]

end app

/-! # Theorems on package bot: TruncatePath -/

namespace bot

open relay

theorem Split_append (p : Bytes) : (Split p).1 ++ (Split p).2 = p := by
  have h := List.takeWhile_append_dropWhile (fun c => decide (c ≠ slash)) p.reverse
  have h2 := congrArg List.reverse h
  rw [List.reverse_append, List.reverse_reverse] at h2
  exact h2

theorem Split_no_slash (p : Bytes) : slash ∉ (Split p).2 := by
  intro h
  have h1 : slash ∈ p.reverse.takeWhile (fun c => decide (c ≠ slash)) := List.mem_reverse.mp h
  have h2 := List.mem_takeWhile_imp h1
  simp at h2

theorem Split_fst_ends (p : Bytes) : (Split p).1 = [] ∨ (Split p).1.getLast? = some slash := by
  show (p.reverse.dropWhile (fun c => decide (c ≠ slash))).reverse = [] ∨
    (p.reverse.dropWhile (fun c => decide (c ≠ slash))).reverse.getLast? = some slash
  rw [List.getLast?_reverse]
  cases h : p.reverse.dropWhile (fun c => decide (c ≠ slash)) with
  | nil => exact Or.inl rfl
  | cons c cs =>
    right
    have h1 := List.head_dropWhile_not (fun c => decide (c ≠ slash)) p.reverse (by rw [h]; simp)
    simp only [h, List.head_cons] at h1
    simp at h1
    simp [h1]

theorem Split_snd_length (p : Bytes) : (Split p).2.length ≤ p.length := by
  have h := congrArg List.length (Split_append p)
  rw [List.length_append] at h
  omega

theorem loop_length (mnt : Bytes) (max : Int) (fuel : Nat) (base s : Bytes)
    (h : TruncatePath.loop mnt max fuel base = some s) : (s.length : Int) ≤ max := by
  induction fuel generalizing base with
  | zero => simp [TruncatePath.loop] at h
  | succ n ih =>
    by_cases hle : ((Join [Dir base, [star], mnt]).length : Int) ≤ max
    · simp only [TruncatePath.loop, hle, if_true] at h
      cases h
      exact hle
    · simp only [TruncatePath.loop, hle, if_false] at h
      exact ih _ h

theorem loop_next (mnt : Bytes) (max : Int) (fuel : Nat) (base : Bytes)
    (h : max < ((Join [Dir base, [star], mnt]).length : Int)) :
    TruncatePath.loop mnt max (fuel + 1) base = TruncatePath.loop mnt max fuel (Dir base) := by
  have hle : ¬ ((Join [Dir base, [star], mnt]).length : Int) ≤ max := by omega
  simp only [TruncatePath.loop, hle, if_false]

theorem loop_stuck (mnt : Bytes) (max : Int) (base : Bytes) (hfix : Dir base = base)
    (h : max < ((Join [base, [star], mnt]).length : Int)) (fuel : Nat) :
    TruncatePath.loop mnt max fuel base = none := by
  induction fuel with
  | zero => rfl
  | succ n ih =>
    rw [loop_next mnt max n base (by rw [hfix]; exact h), hfix]
    exact ih

theorem TruncatePath_enters_loop (fuel : Nat) (p : Bytes) (max : Int) (h1 : 1 ≤ max)
    (h2 : max < (p.length : Int)) (h3 : ((Split p).2.length : Int) ≤ max) :
    TruncatePath fuel p max = TruncatePath.loop (Split p).2 max fuel (Split p).1 := by
  have a : ¬ max < 1 := by omega
  have b : ¬ ((Split p).2.length : Int) > max := by omega
  simp [TruncatePath, a, h2, b]

theorem TruncatePath_length (fuel : Nat) (p : Bytes) (max : Int) (s : Bytes) (h1 : 1 ≤ max)
    (h : TruncatePath fuel p max = some s) : (s.length : Int) ≤ max := by
  have a : ¬ max < 1 := by omega
  by_cases h2 : (p.length : Int) > max
  · by_cases h3 : ((Split p).2.length : Int) > max
    · have hs : (↑(Split p).2.length : Int) - (max - 1) > 0 := by omega
      simp only [TruncatePath, a, h2, h3, hs, if_true, if_false, and_self] at h
      cases h
      simp only [List.length_cons, List.length_drop]
      omega
    · rw [TruncatePath_enters_loop fuel p max h1 h2 (by omega)] at h
      exact loop_length _ _ _ _ _ h
  · simp only [TruncatePath, a, h2, if_false] at h
    cases h
    omega

end bot

namespace bot

open relay

/-- C21: TruncatePath returns the empty string for a max below 1 and the path unchanged
when it fits, and whatever it returns for a max of at least 1 has at most max bytes;
yet it does not return for every path: for "/aaaa/bbbb" and max 6 no number of loop
iterations yields a result, the candidate staying "/*/bbbb" of 7 bytes. -/
theorem TruncatePath_size_limit :
    (∀ fuel : Nat, TruncatePath fuel (utf8 "/aaaa/bbbb") 6 = none) ∧
    (∀ (fuel : Nat) (p : Bytes) (max : Int), 1 ≤ max ∨ TruncatePath fuel p max = some []) ∧
    (∀ (fuel : Nat) (p : Bytes) (max : Int),
      max < 1 ∨ max < (p.length : Int) ∨ TruncatePath fuel p max = some p) ∧
    (∀ (fuel : Nat) (p : Bytes) (max : Int) (s : Bytes),
      max < 1 ∨ TruncatePath fuel p max ≠ some s ∨ (s.length : Int) ≤ max) := by
  refine ⟨?_, ?_, ?_, ?_⟩
  · intro fuel
    rw [TruncatePath_enters_loop fuel _ 6 (by decide) (by decide) (by decide)]
    have hs : Split (utf8 "/aaaa/bbbb") = (utf8 "/aaaa/", utf8 "bbbb") := by decide
    rw [hs]
    cases fuel with
    | zero => rfl
    | succ n =>
      rw [loop_next _ _ _ _ (by decide)]
      have hd : Dir (utf8 "/aaaa/") = utf8 "/aaaa" := by decide
      rw [hd]
      cases n with
      | zero => rfl
      | succ m =>
        rw [loop_next _ _ _ _ (by decide)]
        have hd2 : Dir (utf8 "/aaaa") = [slash] := by decide
        rw [hd2]
        exact loop_stuck _ _ _ (by decide) (by decide) m
  · intro fuel p max
    by_cases h : max < 1
    · right
      simp [TruncatePath, h]
    · left
      omega
  · intro fuel p max
    by_cases h : max < 1
    · exact Or.inl h
    · by_cases h2 : max < (p.length : Int)
      · exact Or.inr (Or.inl h2)
      · right
        right
        have h3 : ¬ (p.length : Int) > max := by omega
        simp [TruncatePath, h, h3]
  · intro fuel p max s
    by_cases h : max < 1
    · exact Or.inl h
    · by_cases hs : TruncatePath fuel p max = some s
      · exact Or.inr (Or.inr (TruncatePath_length fuel p max s (by omega) hs))
      · exact Or.inr (Or.inl hs)

/-- C22: when the last segment of the path (what follows its final slash) has more
than max bytes and max is at least 1, TruncatePath returns, without entering its loop,
a star followed by the last max - 1 bytes of that segment, max bytes in all. -/
theorem TruncatePath_long_last_segment (fuel : Nat) (p : Bytes) (max : Int) (h1 : 1 ≤ max)
    (h : max < ((Split p).2.length : Int)) :
    (Split p).1 ++ (Split p).2 = p ∧ slash ∉ (Split p).2 ∧
    ((Split p).1 = [] ∨ (Split p).1.getLast? = some slash) ∧
    TruncatePath fuel p max
      = some (star :: (Split p).2.drop ((Split p).2.length - (max - 1).toNat)) ∧
    ((star :: (Split p).2.drop ((Split p).2.length - (max - 1).toNat)).length : Int) = max := by
  refine ⟨Split_append p, Split_no_slash p, Split_fst_ends p, ?_, ?_⟩
  · have a : ¬ max < 1 := by omega
    have hp := Split_snd_length p
    have h2 : (p.length : Int) > max := by omega
    have h3 : ((Split p).2.length : Int) > max := h
    have hs : (↑(Split p).2.length : Int) - (max - 1) > 0 := by omega
    have he : ((↑(Split p).2.length : Int) - (max - 1)).toNat
        = (Split p).2.length - (max - 1).toNat := by omega
    simp only [TruncatePath, a, h2, h3, hs, if_true, if_false, and_self, he]
  · simp only [List.length_cons, List.length_drop]
    omega

/-- Witness of C22: "/one/two/somelongfilename" with max 5 gives "*name". -/
theorem TruncatePath_long_last_segment_witness :
    TruncatePath 0 (utf8 "/one/two/somelongfilename") 5 = some (utf8 "*name") ∧
    ((utf8 "*name").length : Int) = 5 :=
  ⟨(TruncatePath_long_last_segment 0 (utf8 "/one/two/somelongfilename") 5 (by decide)
      (by decide)).2.2.2.1,
   (TruncatePath_long_last_segment 0 (utf8 "/one/two/somelongfilename") 5 (by decide)
      (by decide)).2.2.2.2⟩

/-- C27: TruncatePath does not terminate for every path and max: for "a/b" with max 2
the directory part stays "." and the candidate "*/b" of 3 bytes, and for "/ab/cdef"
with max 5 the directory part stays "/" and the candidate "/*/cdef" of 7 bytes, so
no number of loop iterations yields a result. -/
theorem TruncatePath_loops_forever :
    (∀ fuel : Nat, TruncatePath fuel (utf8 "a/b") 2 = none) ∧
    (∀ fuel : Nat, TruncatePath fuel (utf8 "/ab/cdef") 5 = none) := by
  constructor
  · intro fuel
    rw [TruncatePath_enters_loop fuel _ 2 (by decide) (by decide) (by decide)]
    have hs : Split (utf8 "a/b") = (utf8 "a/", utf8 "b") := by decide
    rw [hs]
    cases fuel with
    | zero => rfl
    | succ n =>
      rw [loop_next _ _ _ _ (by decide)]
      have hd : Dir (utf8 "a/") = utf8 "a" := by decide
      rw [hd]
      cases n with
      | zero => rfl
      | succ m =>
        rw [loop_next _ _ _ _ (by decide)]
        have hd2 : Dir (utf8 "a") = [dot] := by decide
        rw [hd2]
        exact loop_stuck _ _ _ (by decide) (by decide) m
  · intro fuel
    rw [TruncatePath_enters_loop fuel _ 5 (by decide) (by decide) (by decide)]
    have hs : Split (utf8 "/ab/cdef") = (utf8 "/ab/", utf8 "cdef") := by decide
    rw [hs]
    cases fuel with
    | zero => rfl
    | succ n =>
      rw [loop_next _ _ _ _ (by decide)]
      have hd : Dir (utf8 "/ab/") = utf8 "/ab" := by decide
      rw [hd]
      cases n with
      | zero => rfl
      | succ m =>
        rw [loop_next _ _ _ _ (by decide)]
        have hd2 : Dir (utf8 "/ab") = [slash] := by decide
        rw [hd2]
        exact loop_stuck _ _ _ (by decide) (by decide) m

end bot

/-! # Theorems on package bot: the two-way cache -/

namespace bot

open relay

variable {α : Type} [DecidableEq α]

theorem SyncMap.Load_Store_self {κ ν : Type} [DecidableEq κ] (m : SyncMap κ ν) (k : κ) (v : ν) :
    (m.Store k v).Load k = some v := by
  simp [SyncMap.Load, SyncMap.Store]

theorem SyncMap.Load_Delete_ne {κ ν : Type} [DecidableEq κ] (m : SyncMap κ ν) (key k : κ)
    (h : key ≠ k) : (m.Delete key).Load k = m.Load k := by
  induction m with
  | nil => rfl
  | cons kv rest ih =>
    by_cases h1 : kv.1 = key
    · have h2 : ¬ kv.1 = k := fun e => h (h1 ▸ e)
      have e1 : SyncMap.Delete (kv :: rest) key = SyncMap.Delete rest key := by
        simp [SyncMap.Delete, h1]
      have e2 : SyncMap.Load (kv :: rest) k = SyncMap.Load rest k := by
        simp [SyncMap.Load, List.find?, h2]
      rw [e1, e2]
      exact ih
    · have e1 : SyncMap.Delete (kv :: rest) key = kv :: SyncMap.Delete rest key := by
        simp [SyncMap.Delete, h1]
      rw [e1]
      by_cases h2 : kv.1 = k
      · simp [SyncMap.Load, List.find?, h2]
      · have e2 : SyncMap.Load (kv :: rest) k = SyncMap.Load rest k := by
          simp [SyncMap.Load, List.find?, h2]
        have e3 : SyncMap.Load (kv :: SyncMap.Delete rest key) k
            = SyncMap.Load (SyncMap.Delete rest key) k := by
          simp [SyncMap.Load, List.find?, h2]
        rw [e2, e3]
        exact ih

theorem expireFrom_ttl (now : Int) (q : List (entry α)) (i : Int) (t : TwoWayCache α)
    (expired : Int) :
    (TwoWayCache.expireFrom now q i t expired).1.ttl = t.ttl ∧
    (TwoWayCache.expireFrom now q i t expired).1.expiry = t.expiry ∧
    (TwoWayCache.expireFrom now q i t expired).1.capacity = t.capacity ∧
    (TwoWayCache.expireFrom now q i t expired).1.lastex = t.lastex := by
  induction q generalizing i t expired with
  | nil => simp [TwoWayCache.expireFrom]
  | cons exp rest ih =>
    by_cases h1 : now - exp.born < t.ttl
    · simp [TwoWayCache.expireFrom, h1]
    · by_cases h2 : t.seen.Load exp.value = none ∨ t.seen.Load exp.value = some (Unix exp.born)
      · cases h3 : t.m1.Load exp.value with
        | none =>
          simp only [TwoWayCache.expireFrom, h1, h2, h3, if_true, if_false]
          exact ih _ _ _
        | some val =>
          simp only [TwoWayCache.expireFrom, h1, h2, h3, if_true, if_false]
          exact ih _ _ _
      · simp only [TwoWayCache.expireFrom, h1, h2, if_false]
        exact ih _ _ _

theorem expireFrom_removed (now : Int) (q : List (entry α)) (i : Int) (t : TwoWayCache α)
    (expired : Int) (k : α) (hk : t.m1.Load k ≠ none)
    (hr : (TwoWayCache.expireFrom now q i t expired).1.m1.Load k = none) :
    ∃ e ∈ q, e.value = k ∧ t.ttl ≤ now - e.born := by
  induction q generalizing i t expired with
  | nil => simp [TwoWayCache.expireFrom] at hr; exact absurd hr hk
  | cons exp rest ih =>
    by_cases h1 : now - exp.born < t.ttl
    · simp [TwoWayCache.expireFrom, h1] at hr
      exact absurd hr hk
    · by_cases hkey : exp.value = k
      · exact ⟨exp, List.mem_cons_self _ _, hkey, by omega⟩
      · have step : ∀ (t2 : TwoWayCache α) (j e2 : Int), t2.ttl = t.ttl → t2.m1.Load k ≠ none →
            (TwoWayCache.expireFrom now rest j t2 e2).1.m1.Load k = none →
            ∃ e ∈ exp :: rest, e.value = k ∧ t.ttl ≤ now - e.born := by
          intro t2 j e2 ht hk2 hr2
          obtain ⟨e, he, hv, ha⟩ := ih j t2 e2 hk2 hr2
          exact ⟨e, List.mem_cons_of_mem _ he, hv, by rw [← ht]; exact ha⟩
        by_cases h2 : t.seen.Load exp.value = none ∨ t.seen.Load exp.value = some (Unix exp.born)
        · cases h3 : t.m1.Load exp.value with
          | none =>
            simp only [TwoWayCache.expireFrom, h1, h2, h3, if_true, if_false] at hr
            exact step _ _ _ rfl hk hr
          | some val =>
            simp only [TwoWayCache.expireFrom, h1, h2, h3, if_true, if_false] at hr
            refine step _ _ _ ?_ ?_ hr
            · rfl
            · show (t.m1.Delete exp.value).Load k ≠ none
              rw [SyncMap.Load_Delete_ne _ _ _ hkey]
              exact hk
        · simp only [TwoWayCache.expireFrom, h1, h2, if_false] at hr
          exact step _ _ _ rfl hk hr

theorem expireFrom_index (now : Int) (q : List (entry α)) (i : Int) (t : TwoWayCache α)
    (expired : Int) :
    (TwoWayCache.expireFrom now q i t expired).2 = expired ∨
    (i ≤ (TwoWayCache.expireFrom now q i t expired).2 ∧
      ∀ e ∈ q.take ((TwoWayCache.expireFrom now q i t expired).2 - i + 1).toNat,
        t.ttl ≤ now - e.born) := by
  induction q generalizing i t expired with
  | nil => left; simp [TwoWayCache.expireFrom]
  | cons exp rest ih =>
    by_cases h1 : now - exp.born < t.ttl
    · left
      simp [TwoWayCache.expireFrom, h1]
    · have step : ∀ (t2 : TwoWayCache α) (e2 : Int), t2.ttl = t.ttl → (e2 = expired ∨ e2 = i) →
          (TwoWayCache.expireFrom now rest (i + 1) t2 e2).2 = expired ∨
          (i ≤ (TwoWayCache.expireFrom now rest (i + 1) t2 e2).2 ∧
            ∀ e ∈ (exp :: rest).take
                ((TwoWayCache.expireFrom now rest (i + 1) t2 e2).2 - i + 1).toNat,
              t.ttl ≤ now - e.born) := by
        intro t2 e2 ht he2
        rcases ih (i + 1) t2 e2 with h | ⟨hle, hall⟩
        · rcases he2 with he | he
          · left
            rw [h, he]
          · right
            rw [h, he]
            refine ⟨le_refl _, ?_⟩
            intro e he3
            have h0 : (i - i + 1).toNat = 1 := by omega
            rw [h0] at he3
            simp at he3
            rw [he3]
            omega
        · right
          refine ⟨by omega, ?_⟩
          intro e he3
          have h0 : ((TwoWayCache.expireFrom now rest (i + 1) t2 e2).2 - i + 1).toNat
              = ((TwoWayCache.expireFrom now rest (i + 1) t2 e2).2 - (i + 1) + 1).toNat + 1 := by
            omega
          rw [h0, List.take_succ_cons] at he3
          rcases List.mem_cons.mp he3 with h4 | h4
          · rw [h4]
            omega
          · rw [← ht]
            exact hall e h4
      by_cases h2 : t.seen.Load exp.value = none ∨ t.seen.Load exp.value = some (Unix exp.born)
      · cases h3 : t.m1.Load exp.value with
        | none =>
          simp only [TwoWayCache.expireFrom, h1, h2, h3, if_true, if_false]
          exact step _ _ rfl (Or.inl rfl)
        | some val =>
          simp only [TwoWayCache.expireFrom, h1, h2, h3, if_true, if_false]
          exact step _ _ rfl (Or.inr rfl)
      · simp only [TwoWayCache.expireFrom, h1, h2, if_false]
        exact step _ _ rfl (Or.inl rfl)

end bot

namespace bot

open relay

variable {α : Type} [DecidableEq α]

/-- C23: in a cache that does not hold key k, after Add(k, v) and with no expiration
in between, GetByKey(k) returns (v, true) and GetByValue(v) returns (k, true), each on
its own and one after the other in either order; after Clear() GetByKey and
GetByValue return (nil, false) for every argument. -/
theorem cache_round_trip (t : TwoWayCache α) (k v : α) (now t1 t2 t3 : Int)
    (hk : t.m1.Load k = none) :
    ((t.Add k v now).GetByKey k t1).1 = (some v, true) ∧
    ((t.Add k v now).GetByValue v t2 t3).1 = (some k, true) ∧
    (((t.Add k v now).GetByKey k t1).2.GetByValue v t2 t3).1 = (some k, true) ∧
    (((t.Add k v now).GetByValue v t2 t3).2.GetByKey k t1).1 = (some v, true) ∧
    ∀ (c : TwoWayCache α) (x : α),
      (c.Clear.GetByKey x t1).1 = (none, false) ∧
      (c.Clear.GetByValue x t2 t3).1 = (none, false) := by
  have h1 : (t.Add k v now).m1.Load k = some v := by
    simp [TwoWayCache.Add, hk, TwoWayCache.addExpiry, SyncMap.Load_Store_self]
  have h2 : (t.Add k v now).m2.Load v = some k := by
    simp [TwoWayCache.Add, hk, TwoWayCache.addExpiry, SyncMap.Load_Store_self]
  refine ⟨?_, ?_, ?_, ?_, ?_⟩
  · simp [TwoWayCache.GetByKey, h1]
  · simp [TwoWayCache.GetByValue, h2]
  · have h3 : ((t.Add k v now).GetByKey k t1).2.m2.Load v = some k := by
      simp [TwoWayCache.GetByKey, h1, TwoWayCache.addExpiry, h2]
    simp [TwoWayCache.GetByValue, h3]
  · have h3 : ((t.Add k v now).GetByValue v t2 t3).2.m1.Load k = some v := by
      simp [TwoWayCache.GetByValue, h2, TwoWayCache.addExpiry, h1]
    simp [TwoWayCache.GetByKey, h3]
  · intro c x
    constructor
    · simp [TwoWayCache.GetByKey, TwoWayCache.Clear, SyncMap.Load]
    · simp [TwoWayCache.GetByValue, TwoWayCache.Clear, SyncMap.Load]

/-- Witness of C23: a new cache, key "key" and value "val". -/
theorem cache_round_trip_witness :
    (((NewCache String 60000000000 500).Add "key" "val" 0).GetByKey "key" 1).1
      = (some "val", true) ∧
    (((NewCache String 60000000000 500).Add "key" "val" 0).GetByValue "val" 2 3).1
      = (some "key", true) :=
  ⟨(cache_round_trip (NewCache String 60000000000 500) "key" "val" 0 1 2 3 (by decide)).1,
   (cache_round_trip (NewCache String 60000000000 500) "key" "val" 0 1 2 3 (by decide)).2.1⟩

/-- C24: Add on an existing key with a different value does not store the new pair: in
a new cache after Add(k, v1) and Add(k, v2) with v2 other than v1, GetByKey(k) still
returns (v1, true) and GetByValue(v2) returns (nil, false); only the entry of v1 in
the value map is gone. -/
theorem Add_existing_key_keeps_old_value (ttl capacity t0 t1 n : Int) (k v1 v2 : String) :
    v2 = v1 ∨
    (((((NewCache String ttl capacity).Add k v1 t0).Add k v2 t1).GetByKey k n).1
        = (some v1, true) ∧
      ((((NewCache String ttl capacity).Add k v1 t0).Add k v2 t1).GetByValue v2 n n).1
        = (none, false) ∧
      ((((NewCache String ttl capacity).Add k v1 t0).Add k v2 t1).GetByValue v1 n n).1
        = (none, false)) := by
  by_cases h : v2 = v1
  · exact Or.inl h
  · right
    have e : ((NewCache String ttl capacity).Add k v1 t0).m1.Load k = some v1 := by
      simp [NewCache, TwoWayCache.Add, SyncMap.Load, SyncMap.Store, SyncMap.Delete,
        TwoWayCache.addExpiry]
    have e2 : ((NewCache String ttl capacity).Add k v1 t0).m2 = [(v1, k)] := by
      simp [NewCache, TwoWayCache.Add, SyncMap.Load, SyncMap.Store, SyncMap.Delete,
        TwoWayCache.addExpiry]
    have a1 : (((NewCache String ttl capacity).Add k v1 t0).Add k v2 t1).m1.Load k = some v1 := by
      rw [TwoWayCache.Add, e]
      simp [h, TwoWayCache.addExpiry, e]
    have a2 : (((NewCache String ttl capacity).Add k v1 t0).Add k v2 t1).m2 = [] := by
      rw [TwoWayCache.Add, e]
      simp [h, TwoWayCache.addExpiry, e2, SyncMap.Delete]
    refine ⟨?_, ?_, ?_⟩
    · simp [TwoWayCache.GetByKey, a1]
    · simp [TwoWayCache.GetByValue, a2, SyncMap.Load]
    · simp [TwoWayCache.GetByValue, a2, SyncMap.Load]

/-- C25: a lookup does not always prolong the life of a key. With a time-to-live of
500 ms and capacity 0, a key added at 10.0 s and looked up with GetByKey at 10.3 s is
removed by an expiration pass at 10.6 s, 300 ms after the lookup: the queue entry of
10.0 s is 600 ms old and was born in the same whole second as the lookup that the
seen map records, so it is taken for the latest one. The same happens for a lookup
with GetByValue. -/
theorem lookup_in_same_second_expires :
    ((((NewCache String 500000000 0).Add "key" "val" 10000000000).GetByKey "key"
        10300000000).1 = (some "val", true)) ∧
    (10600000000 - 10300000000 < (NewCache String 500000000 0).ttl) ∧
    ((((((NewCache String 500000000 0).Add "key" "val" 10000000000).GetByKey "key"
        10300000000).2.expire 10600000000).GetByKey "key" 10600000000).1 = (none, false)) ∧
    ((((((NewCache String 500000000 0).Add "key" "val" 10000000000).GetByKey "key"
        10300000000).2.expire 10600000000).GetByValue "val" 10600000000 10600000000).1
      = (none, false)) ∧
    ((((((NewCache String 500000000 0).Add "key" "val" 10000000000).GetByValue "val"
        10300000000 10300000000).2.expire 10600000000).GetByKey "key" 10600000000).1
      = (none, false)) := by
  decide

/-- C26: an expire run on a queue of no more than capacity entries changes nothing;
a run that changes the cache finds the queue over capacity and the previous expiration
more than ttl ago; a key it removes has a queue entry at least ttl old; and the queue
afterwards is the queue before without some first entries, each at least ttl old. -/
theorem expire_capacity_gate (t : TwoWayCache α) (now : Int) :
    ((t.expiry.length : Int) ≤ t.capacity → t.expire now = t) ∧
    (t.expire now ≠ t → t.capacity < (t.expiry.length : Int) ∧ t.ttl < t.sinceLastex now) ∧
    (∀ k, t.m1.Load k ≠ none → (t.expire now).m1.Load k = none →
      ∃ e ∈ t.expiry, e.value = k ∧ t.ttl ≤ now - e.born) ∧
    (∃ n, (t.expire now).expiry = t.expiry.drop n ∧
      ∀ e ∈ t.expiry.take n, t.ttl ≤ now - e.born) := by
  have hgate : ¬ (t.capacity < (t.expiry.length : Int) ∧ t.ttl < t.sinceLastex now) →
      t.expire now = t := by
    intro h
    have hf : t.timeToExpire now = false := by
      simp only [TwoWayCache.timeToExpire, Bool.and_eq_false_iff, decide_eq_false_iff_not]
      by_cases h1 : t.capacity < (t.expiry.length : Int)
      · right
        intro h2
        exact h ⟨h1, h2⟩
      · left
        exact h1
    simp [TwoWayCache.expire, hf]
  refine ⟨?_, ?_, ?_, ?_⟩
  · intro h
    exact hgate (fun hc => by omega)
  · intro hne
    by_contra hc
    exact hne (hgate hc)
  · intro k hk hr
    by_cases hg : t.timeToExpire now = true
    · have hm : (t.expire now).m1
          = (TwoWayCache.expireFrom now t.expiry 0 t (-1)).1.m1 := by
        simp only [TwoWayCache.expire, hg, if_true, TwoWayCache.expireOldEntries]
        split <;> rfl
      rw [hm] at hr
      exact expireFrom_removed now t.expiry 0 t (-1) k hk hr
    · simp only [TwoWayCache.expire, hg] at hr
      exact absurd hr hk
  · by_cases hg : t.timeToExpire now = true
    · by_cases hx : (TwoWayCache.expireFrom now t.expiry 0 t (-1)).2 > -1
      · refine ⟨((TwoWayCache.expireFrom now t.expiry 0 t (-1)).2 + 1).toNat, ?_, ?_⟩
        · simp only [TwoWayCache.expire, hg, if_true, TwoWayCache.expireOldEntries, hx]
          rw [(expireFrom_ttl now t.expiry 0 t (-1)).2.1]
        · rcases expireFrom_index now t.expiry 0 t (-1) with h | ⟨_, hall⟩
          · omega
          · intro e he
            have h0 : ((TwoWayCache.expireFrom now t.expiry 0 t (-1)).2 - 0 + 1).toNat
                = ((TwoWayCache.expireFrom now t.expiry 0 t (-1)).2 + 1).toNat := by
              rw [Int.sub_zero]
            rw [h0] at hall
            exact hall e he
      · refine ⟨0, ?_, by simp⟩
        simp only [TwoWayCache.expire, hg, if_true, TwoWayCache.expireOldEntries, hx, if_false,
          List.drop_zero]
        exact (expireFrom_ttl now t.expiry 0 t (-1)).2.1
    · refine ⟨0, ?_, by simp⟩
      simp [TwoWayCache.expire, hg]

/-- Witness of C26: a queue of one entry under capacity 2 is left alone 10 s later
with a time-to-live of 500 ms, and under capacity 0 the key is removed, its entry
being at least that old. -/
theorem expire_capacity_gate_witness :
    ((NewCache String 500000000 2).Add "key" "val" 0).expire 10000000000
      = (NewCache String 500000000 2).Add "key" "val" 0 ∧
    ∃ e ∈ ((NewCache String 500000000 0).Add "key" "val" 0).expiry,
      e.value = "key" ∧
      ((NewCache String 500000000 0).Add "key" "val" 0).ttl ≤ 10000000000 - e.born :=
  ⟨(expire_capacity_gate ((NewCache String 500000000 2).Add "key" "val" 0) 10000000000).1
      (by decide),
   (expire_capacity_gate ((NewCache String 500000000 0).Add "key" "val" 0)
      10000000000).2.2.1 "key" (by decide) (by decide)⟩

end bot

/-! # Theorems on package bot: the error history of Slack -/

namespace bot

open relay

theorem recordError_bounds (s : Slack) (err : Option Error) (now : Int) :
    (s.recordError err now).errorTimes.length ≤ 101 ∧
    (s.recordError err now).errorsRecent.length ≤ 11 ∧
    (s.recordError err now).errorCount = s.errorCount + 1 := by
  by_cases h1 : s.errorTimes.length > 100
  · by_cases h2 : s.errorsRecent.length > 10
    · cases err with
      | none =>
        simp only [Slack.recordError, h1, h2, if_true]
        simp
        try omega
      | some e =>
        simp only [Slack.recordError, h1, h2, if_true]
        simp
        try omega
    · cases err with
      | none =>
        simp only [Slack.recordError, h1, h2, if_true, if_false]
        simp
        try omega
      | some e =>
        simp only [Slack.recordError, h1, h2, if_true, if_false]
        simp
        try omega
  · by_cases h2 : s.errorsRecent.length > 10
    · cases err with
      | none =>
        simp only [Slack.recordError, h1, h2, if_true, if_false]
        simp
        try omega
      | some e =>
        simp only [Slack.recordError, h1, h2, if_true, if_false]
        simp
        try omega
    · cases err with
      | none =>
        simp only [Slack.recordError, h1, h2, if_false]
        simp
        try omega
      | some e =>
        simp only [Slack.recordError, h1, h2, if_false]
        simp
        try omega

theorem recordErrors_snoc (s : Slack) (calls : List (Option Error × Int))
    (c : Option Error × Int) :
    s.recordErrors (calls ++ [c]) = (s.recordErrors calls).recordError c.1 c.2 := by
  simp [Slack.recordErrors, List.foldl_append]

theorem recordErrors_count (s : Slack) (calls : List (Option Error × Int)) :
    (s.recordErrors calls).errorCount = s.errorCount + calls.length := by
  induction calls using List.reverseRecOn with
  | nil => simp [Slack.recordErrors]
  | append_singleton l c ih =>
    rw [recordErrors_snoc, (recordError_bounds _ _ _).2.2, ih]
    simp
    omega

set_option maxRecDepth 100000 in
theorem errorTimes_after_102 :
    (NewSlack.recordErrors ((List.range 102).map (fun i => (none, (i : Int))))).errorTimes
      = (List.range' 1 99).map (fun i => (i : Int)) ++ [101] := by
  decide

set_option maxRecDepth 100000 in
theorem errorTimes_not_suffix :
    ¬ ((List.range' 1 99).map (fun i => (i : Int)) ++ [101])
      <:+ (List.range 102).map (fun i => (i : Int)) := by
  decide

/-- C30: the error history does not always keep the latest entries. After 102 calls
at times 0 to 101 errorTimes holds 1 to 99 and 101: the slice [1:100] taken of the 101
entries drops the newest entry, 100, with the oldest, so what is left is not a suffix
of the recorded times. Likewise after 12 calls with errors e0 to e11 errorsRecent
lacks e10. The bounds of 101 and 11 entries hold, and errorCount is the number of
calls. -/
theorem recordError_drops_newest :
    (NewSlack.recordErrors ((List.range 102).map (fun i => (none, (i : Int))))).errorTimes
      = (List.range' 1 99).map (fun i => (i : Int)) ++ [101] ∧
    ¬ (NewSlack.recordErrors ((List.range 102).map (fun i => (none, (i : Int))))).errorTimes
      <:+ (List.range 102).map (fun i => (i : Int)) ∧
    (NewSlack.recordErrors
        [(some "e0", 0), (some "e1", 1), (some "e2", 2), (some "e3", 3), (some "e4", 4),
         (some "e5", 5), (some "e6", 6), (some "e7", 7), (some "e8", 8), (some "e9", 9),
         (some "e10", 10), (some "e11", 11)]).errorsRecent
      = ["e1", "e2", "e3", "e4", "e5", "e6", "e7", "e8", "e9", "e11"] ∧
    ¬ ["e1", "e2", "e3", "e4", "e5", "e6", "e7", "e8", "e9", "e11"]
      <:+ ["e0", "e1", "e2", "e3", "e4", "e5", "e6", "e7", "e8", "e9", "e10", "e11"] ∧
    (∀ calls : List (Option Error × Int),
      (NewSlack.recordErrors calls).errorTimes.length ≤ 101 ∧
      (NewSlack.recordErrors calls).errorsRecent.length ≤ 11 ∧
      (NewSlack.recordErrors calls).errorCount = calls.length) := by
  refine ⟨errorTimes_after_102, ?_, by decide, by decide, ?_⟩
  · rw [errorTimes_after_102]
    exact errorTimes_not_suffix
  · intro calls
    refine ⟨?_, ?_, ?_⟩
    · induction calls using List.reverseRecOn with
      | nil => decide
      | append_singleton l c _ =>
        rw [recordErrors_snoc]
        exact (recordError_bounds _ _ _).1
    · induction calls using List.reverseRecOn with
      | nil => decide
      | append_singleton l c _ =>
        rw [recordErrors_snoc]
        exact (recordError_bounds _ _ _).2.1
    · rw [recordErrors_count]
      simp [NewSlack]

end bot

/-! # Theorems on the ring of timestamps and on the whitelist -/

namespace relay

theorem anchored_ends (re : Regexp) (t : List Char) (i : Nat) :
    (Regexp.cat .bot (.cat re .eot)).ends t i ≠ [] ↔ i = 0 ∧ t.length ∈ re.ends t 0 := by
  by_cases hi : i = 0
  · subst hi
    simp only [Regexp.ends, if_true, List.flatMap_cons, List.flatMap_nil, List.append_nil,
      true_and]
    constructor
    · intro h
      obtain ⟨x, hx⟩ := List.exists_mem_of_ne_nil _ h
      obtain ⟨j, hj, hxj⟩ := List.mem_flatMap.mp hx
      by_cases hjt : j = t.length
      · rw [← hjt]
        exact hj
      · simp [hjt] at hxj
    · intro h hnil
      have : t.length ∈ (re.ends t 0).flatMap (fun j => if j = t.length then [j] else []) :=
        List.mem_flatMap.mpr ⟨t.length, h, by simp⟩
      rw [hnil] at this
      cases this
  · simp [Regexp.ends, hi]

/-- C28: disconnected() drops the oldest disconnect timestamp exactly when connectTimes
has more than 1000 entries. After any number of connected()/disconnected() pairs on a
new Relay, and after one more connected(), disconnectTimes is no longer than
connectTimes, which has at most 1001 entries; whenever connectTimes then has more than
1000 entries disconnectTimes is not empty, so the following disconnected() succeeds.
In a state with 1001 connect times and no disconnect time, which is not reachable,
the slice expression fails. -/
theorem disconnected_trim_safe (host : String) (port : Int) (wl : Regexp) (mode : RelayMode)
    (conf : TLSConfig) (ts : List (Int × Int × Int)) (a b now : Int) :
    (∃ r r2, (NewRelay host port wl mode conf).cycles ts = some r ∧
      r.disconnectTimes.length ≤ r.connectTimes.length ∧ r.connectTimes.length ≤ 1001 ∧
      (r.connected a b).disconnectTimes.length ≤ (r.connected a b).connectTimes.length ∧
      (r.connected a b).connectTimes.length ≤ 1001 ∧
      ((r.connected a b).connectTimes.length ≤ 1000 ∨ (r.connected a b).disconnectTimes ≠ []) ∧
      (r.connected a b).disconnected now = some r2 ∧
      r2.connectTimes = (r.connected a b).connectTimes ∧
      r2.disconnectTimes =
        (if (r.connected a b).connectTimes.length > 1000
          then (r.connected a b).disconnectTimes.drop 1
          else (r.connected a b).disconnectTimes) ++ [now]) ∧
    Relay.disconnected
      { NewRelay host port wl mode conf with connectTimes := List.replicate 1001 0 } now
      = none := by
  constructor
  · obtain ⟨r, hr, hc, hd, -, -⟩ := cycles_invariant ts (NewRelay host port wl mode conf) 0 [] []
      (by simp [NewRelay]) (by simp [NewRelay]) (by simp [NewRelay]) (by simp [NewRelay])
    rw [Nat.zero_add] at hc hd
    have hf := connected_fields r a b
    have hct := connected_connectTimes r a b
    have hclen : (r.connected a b).connectTimes.length = min (ts.length + 1) 1001 := by
      rw [hct]
      by_cases h : r.connectTimes.length > 1000
      · simp only [h, if_true, List.length_append, List.length_drop, List.length_singleton]
        omega
      · simp only [h, if_false, List.length_append, List.length_singleton]
        omega
    have hdlen : (r.connected a b).disconnectTimes.length = min ts.length 1000 := by
      rw [hf.1, hd]
    have hsafe : (r.connected a b).connectTimes.length > 1000 →
        (r.connected a b).disconnectTimes ≠ [] := by
      intro h hnil
      rw [hnil] at hdlen
      simp only [List.length_nil] at hdlen
      omega
    obtain ⟨r2, hr2, hdt, hcs, -⟩ := disconnected_some (r.connected a b) now hsafe
    refine ⟨r, r2, hr, by omega, by omega, by omega, by omega, ?_, hr2, hcs, hdt⟩
    by_cases h : (r.connected a b).connectTimes.length > 1000
    · exact Or.inr (hsafe h)
    · exact Or.inl (by omega)
  · simp only [Relay.disconnected, NewRelay, List.length_replicate, List.length_nil]
    rfl

/-- C29: AddrAllowed admits a TCP peer exactly when the whitelist pattern matches
from some position of the text of the peer's IP to some later one. So the pattern
1.2.3.4 admits 1.2.3.4 and also 11.2.3.4 and 1.2.3.45, while ^1.2.3.4$ admits only the
first of the three; and a pattern between ^ and $ admits a peer exactly when the
pattern matches the whole text of its IP. -/
theorem AddrAllowed_unanchored (r : Relay) (tcp : TCPAddr) :
    (r.AddrAllowed (.tcp tcp) = true ↔
      ∃ i j, i ≤ tcp.IP.String.toList.length ∧ j ∈ r.WhiteList.ends tcp.IP.String.toList i) ∧
    (Compile "1.2.3.4").map (fun re =>
      ((NewRelay "" 0 re PassThrough {}).AddrAllowed (.tcp { IP := [1, 2, 3, 4], Port := 0 }),
       (NewRelay "" 0 re PassThrough {}).AddrAllowed (.tcp { IP := [11, 2, 3, 4], Port := 0 }),
       (NewRelay "" 0 re PassThrough {}).AddrAllowed (.tcp { IP := [1, 2, 3, 45], Port := 0 })))
      = some (true, true, true) ∧
    (Compile "^1.2.3.4$").map (fun re =>
      ((NewRelay "" 0 re PassThrough {}).AddrAllowed (.tcp { IP := [1, 2, 3, 4], Port := 0 }),
       (NewRelay "" 0 re PassThrough {}).AddrAllowed (.tcp { IP := [11, 2, 3, 4], Port := 0 }),
       (NewRelay "" 0 re PassThrough {}).AddrAllowed (.tcp { IP := [1, 2, 3, 45], Port := 0 })))
      = some (true, false, false) ∧
    (∀ re : Regexp,
      (Relay.AddrAllowed { r with WhiteList := .cat .bot (.cat re .eot) } (.tcp tcp) = true ↔
        tcp.IP.String.toList.length ∈ re.ends tcp.IP.String.toList 0)) := by
  have hgen : ∀ (re : Regexp) (s : String), re.MatchString s = true ↔
      ∃ i, i ≤ s.toList.length ∧ re.ends s.toList i ≠ [] := by
    intro re s
    simp only [Regexp.MatchString, List.any_eq_true, List.mem_range, Bool.not_eq_true',
      List.isEmpty_eq_false]
    constructor
    · rintro ⟨i, hi, h⟩
      exact ⟨i, by omega, h⟩
    · rintro ⟨i, hi, h⟩
      exact ⟨i, by omega, h⟩
  refine ⟨?_, by decide, by decide, ?_⟩
  · show r.WhiteList.MatchString tcp.IP.String = true ↔ _
    rw [hgen]
    constructor
    · rintro ⟨i, hi, h⟩
      obtain ⟨j, hj⟩ := List.exists_mem_of_ne_nil _ h
      exact ⟨i, j, hi, hj⟩
    · rintro ⟨i, j, hi, hj⟩
      exact ⟨i, hi, List.ne_nil_of_mem hj⟩
  · intro re
    show (Regexp.cat .bot (.cat re .eot)).MatchString tcp.IP.String = true ↔ _
    rw [hgen]
    constructor
    · rintro ⟨i, _, h⟩
      exact ((anchored_ends re _ i).mp h).2
    · intro h
      exact ⟨0, Nat.zero_le _, (anchored_ends re _ 0).mpr ⟨rfl, h⟩⟩

end relay
